import Mathlib

/-!
Verification of the dotfiles / installer reconciliation logic of the
`linux-config` repository (`scripts/installers/dotfiles.py`,
`scripts/installers/base.py`, `scripts/installers/claude_code.py`,
`scripts/installers/oh_my_zsh.py`).

The filesystem is shallowly embedded as a finite association list from
paths (component lists) to entries (regular file with content, mode and
mtime; symbolic link with target; directory).  The semantics of the
`pathlib` operations used by the source are modelled faithfully:

* `Path.exists()` follows symlinks (a dangling symlink does not "exist",
  and a resolution loop makes `exists()` return false because `stat`
  fails with an `OSError` that `exists()` swallows);
* `Path.is_symlink()` is `lstat`-based (does not follow the link);
* `Path.resolve()` is the non-strict Python >= 3.6 variant: it follows
  the chain of links and returns the final path even when that path does
  not exist; it raises only when the chain loops, which is modelled by
  running out of fuel (`fs.length + 1` steps suffice for any loop-free
  chain);
* `Path.unlink()` removes the entry at the path itself (it does not
  follow a final symlink);
* `shutil.copy2` follows the source link chain and copies content, mode
  and mtime;
* `Path.chmod()` follows symlinks and changes the mode of the final
  regular file;
* `Path.mkdir(exist_ok=True)` succeeds on a missing path or an existing
  directory and raises when the path holds a non-directory.

Fallible operations return `Except FS FS`; the error value carries the
filesystem at the moment the exception is raised, matching the fact that
a Python exception leaves all mutations made so far in place.
-/

set_option autoImplicit false

/-- A filesystem path, as the list of its components from the root. -/
abbrev FPath := List String

/-- One filesystem entry: a regular file (content, permission mode,
modification time), a symbolic link (target path), or a directory. -/
inductive Entry where
  | file (content : String) (mode : Nat) (mtime : Nat)
  | link (target : FPath)
  | dir
  deriving DecidableEq, Repr

/-- Filesystem state: a finite association list from paths to entries. -/
abbrev FS := List (FPath × Entry)

/-- Look up the entry stored at a path (no symlink following): `lstat`. -/
def lookupFS (fs : FS) (p : FPath) : Option Entry :=
  match fs with
  | [] => none
  | (q, e) :: rest => if q = p then some e else lookupFS rest p

/-- Store an entry at a path, replacing the first previous binding. -/
def insertFS (fs : FS) (p : FPath) (e : Entry) : FS :=
  match fs with
  | [] => [(p, e)]
  | (q, d) :: rest => if q = p then (p, e) :: rest else (q, d) :: insertFS rest p e

/-- Remove every binding of a path: `unlink` of the entry itself. -/
def removeFS (fs : FS) (p : FPath) : FS :=
  fs.filter (fun qe => decide (qe.1 ≠ p))

/-- Follow the symlink chain starting at `p` for at most `fuel` steps.
`none` models the `OSError`/`RuntimeError` Python raises on a symlink
loop; with `fuel = fs.length + 1` every loop-free chain terminates. -/
def resolveMany (fs : FS) : Nat → FPath → Option FPath
  | 0, _ => none
  | fuel + 1, p =>
    match lookupFS fs p with
    | some (Entry.link t) => resolveMany fs fuel t
    | _ => some p

/-- Python `Path.resolve()` (non-strict): the fully-followed path, or
`none` when resolution loops (which raises in Python). -/
def pyResolve (fs : FS) (p : FPath) : Option FPath :=
  resolveMany fs (fs.length + 1) p

/-- Whether an `lstat` result is a file or directory (the kinds that
make `exists()` true). -/
def isExistingKind : Option Entry → Bool
  | some (Entry.file ..) => true
  | some Entry.dir => true
  | _ => false

/-- Python `Path.exists()`: follows symlinks; false for a missing path,
a dangling symlink, or a symlink loop (whose `OSError` it swallows). -/
def pathExists (fs : FS) (p : FPath) : Bool :=
  match pyResolve fs p with
  | some z => isExistingKind (lookupFS fs z)
  | none => false

/-- Python `Path.is_symlink()`: `lstat`-based, does not follow. -/
def isSymlink (fs : FS) (p : FPath) : Bool :=
  match lookupFS fs p with
  | some (Entry.link _) => true
  | _ => false

/-- `Path.unlink()` under the guards used by the source (target present). -/
def unlinkFS (fs : FS) (p : FPath) : FS := removeFS fs p

/-- `Path.symlink_to`: the source always unlinks the destination first,
so the plain insert is faithful. -/
def symlinkTo (fs : FS) (p target : FPath) : FS :=
  insertFS fs p (Entry.link target)

/-- `Path.write_text`: creates or truncates a regular file; the mode of
a fresh file is 0o644 and its mtime is the current time. -/
def writeText (fs : FS) (p : FPath) (s : String) (now : Nat) : FS :=
  insertFS fs p (Entry.file s 420 now)

/-- `Path.chmod` (follows symlinks): set the mode of the resolved
regular file; no-op cases cannot be reached through the guards the
source places in front of its `chmod` calls. -/
def chmodFS (fs : FS) (p : FPath) (m : Nat) : FS :=
  match pyResolve fs p with
  | some z =>
    match lookupFS fs z with
    | some (Entry.file c _ t) => insertFS fs z (Entry.file c m t)
    | _ => fs
  | none => fs

/-- `shutil.copy2 src dst`: follows the source chain and copies content,
mode and mtime.  Raises (error, carrying the untouched filesystem) when
the resolved source is not a regular file (e.g. a directory). -/
def copy2 (fs : FS) (src dst : FPath) : Except FS FS :=
  match pyResolve fs src with
  | some z =>
    match lookupFS fs z with
    | some (Entry.file c m t) => Except.ok (insertFS fs dst (Entry.file c m t))
    | _ => Except.error fs
  | none => Except.error fs

/-- `Path.mkdir(exist_ok=True)` for a single path: create a missing
directory, accept an existing directory, raise on a non-directory. -/
def mkdirSelf (fs : FS) (p : FPath) : Except FS FS :=
  match lookupFS fs p with
  | none => Except.ok (insertFS fs p Entry.dir)
  | some Entry.dir => Except.ok fs
  | some _ => Except.error fs

/-- All strict prefixes of a path, shortest first (its ancestors). -/
def properPrefixes : FPath → List FPath
  | [] => []
  | x :: xs => [] :: (properPrefixes xs).map (fun q => x :: q)

/-- Create every directory in a list in order, stopping at the first
failure (`mkdir` with `parents=True, exist_ok=True`, unrolled). -/
def mkdirList (fs : FS) : List FPath → Except FS FS
  | [] => Except.ok fs
  | p :: ps =>
    match mkdirSelf fs p with
    | Except.ok fs1 => mkdirList fs1 ps
    | Except.error fsE => Except.error fsE

/-- `p.parent.mkdir(parents=True, exist_ok=True)`: create all missing
ancestors of `p` (not `p` itself). -/
def mkdirAncestors (fs : FS) (p : FPath) : Except FS FS :=
  mkdirList fs (properPrefixes p)

/-- `p.mkdir(parents=True, exist_ok=True)`: ancestors and `p` itself. -/
def mkdirAll (fs : FS) (p : FPath) : Except FS FS :=
  mkdirList fs (properPrefixes p ++ [p])

/-- The final component of a path: Python `Path.name`. -/
def pathName (p : FPath) : String := p.getLastD ""

/-- Python `str(path)` rendering, used when paths are embedded in
command lines or backup text. -/
def renderPath (p : FPath) : String :=
  "/" ++ String.intercalate "/" p

/-- `st_mtime` of the (symlink-following) `stat` of a path; directories
and missing files are given mtime 0, which no claim depends on. -/
def mtimeOpt : Option Entry → Nat
  | some (Entry.file _ _ t) => t
  | _ => 0

/-- See `statMtime` below. -/
def statMtime (fs : FS) (p : FPath) : Nat :=
  match pyResolve fs p with
  | some z => mtimeOpt (lookupFS fs z)
  | none => 0

/-- Python `max(xs, key=f)`: the first element attaining the maximum
(later elements replace the current best only when strictly greater). -/
def pyMax (f : FPath → Nat) : List FPath → Option FPath
  | [] => none
  | x :: xs => some (xs.foldl (fun best y => if f best < f y then y else best) x)

/-! ## DotfilesInstaller (`scripts/installers/dotfiles.py`)

The installer is parametrised by its repository root and the home
directory; the configuration map `.zshrc / .gitconfig / custom-CLAUDE.md`
is kept as an explicit parameter `dmap : List (String × FPath)` of
(source-name, destination-path) pairs so that statements about adding or
removing an entry can be made; `dotfilesMap` below is the concrete map
from the source. -/

structure DInst where
  repoRoot : FPath
  home : FPath
  deriving DecidableEq, Repr

/-- `self.configs_dir = self.repo_root / 'configs'`. -/
def configsDir (inst : DInst) : FPath := inst.repoRoot ++ ["configs"]

/-- `backup_dir = self.home / '.config-backups'`. -/
def backupDir (inst : DInst) : FPath := inst.home ++ [".config-backups"]

/-- The concrete `dotfiles_map` of the source. -/
def dotfilesMap (inst : DInst) : List (String × FPath) :=
  [(".zshrc", inst.home ++ [".zshrc"]),
   (".gitconfig", inst.home ++ [".gitconfig"]),
   ("custom-CLAUDE.md", inst.home ++ [".claude-custom.md"])]

/-- The candidate source locations for a config file, in priority
order: personal override, default, legacy repository root. -/
def candidatePaths (inst : DInst) (filename : String) : List FPath :=
  [configsDir inst ++ ["personal", filename],
   configsDir inst ++ ["default", filename],
   inst.repoRoot ++ [filename]]

/-- `DotfilesInstaller._get_source_path`: personal if it exists, else
default if it exists, else the repository root fallback (returned
without an existence check; callers test existence themselves). -/
def getSourcePath (inst : DInst) (fs : FS) (filename : String) : FPath :=
  let personalPath := configsDir inst ++ ["personal", filename]
  let defaultPath := configsDir inst ++ ["default", filename]
  if pathExists fs personalPath then personalPath
  else if pathExists fs defaultPath then defaultPath
  else inst.repoRoot ++ [filename]

/-- One iteration of the `DotfilesInstaller.is_installed` loop.  Mirrors
lines 42-67 of `dotfiles.py`: skip when the source is missing; fail when
the destination does not exist; succeed when source and destination
resolve to the same file; otherwise require a symlink resolving to the
source (resolution failure inside the `try` returns false). -/
def isInstalledEntry (inst : DInst) (fs : FS) (e : String × FPath) : Bool :=
  let srcPath := getSourcePath inst fs e.1
  if pathExists fs srcPath = false then true
  else if pathExists fs e.2 = false then false
  else if pyResolve fs srcPath = pyResolve fs e.2 then true
  else if isSymlink fs e.2 then
    match pyResolve fs e.2, pyResolve fs srcPath with
    | some a, some b => decide (a = b)
    | _, _ => false
  else false

/-- `DotfilesInstaller.is_installed`. -/
def dotfilesIsInstalled (inst : DInst) (dmap : List (String × FPath)) (fs : FS) : Bool :=
  dmap.all (isInstalledEntry inst fs)

/-- The spec's derived `DeploymentState` (spec section 3): computed from
the target entry relative to the resolved source. -/
inductive DeploymentState where
  | Absent
  | CorrectLink
  | WrongLink
  | ForeignFile
  | SameFile
  deriving DecidableEq, Repr

/-- Classify the target `dest` relative to the source `src`:
`Absent` when no entry is present at the target; for a symlink,
`CorrectLink` when it resolves (to an existing file) to the same place
as the source and `WrongLink` otherwise (including dangling and looping
links); for a non-link, `SameFile` when it is the same file as the
source and `ForeignFile` otherwise. -/
def classify (fs : FS) (src dest : FPath) : DeploymentState :=
  match lookupFS fs dest with
  | none => DeploymentState.Absent
  | some (Entry.link _) =>
    if pathExists fs dest ∧ pyResolve fs dest = pyResolve fs src then
      DeploymentState.CorrectLink
    else DeploymentState.WrongLink
  | some _ =>
    if pyResolve fs dest = pyResolve fs src then DeploymentState.SameFile
    else DeploymentState.ForeignFile

/-! ### `DotfilesInstaller.install` (lines 69-141)

Phase 1 (the first loop) decides, against the un-mutated filesystem,
which entries need a backup and which need a (re-)link; phase 2 creates
the backups; phase 3 creates the symlinks; phase 4 sets permissions on
the source files.  The surrounding `try` converts any exception into a
`False` result, leaving the mutations made so far in place. -/

/-- The contribution of one entry to `files_to_backup` / `files_to_link`
(first loop of `install`): nothing when the source is missing or the
destination is already correct; backup + link for a wrong-target symlink
or an existing foreign file; link only for a broken symlink or a missing
destination. -/
def planEntry (inst : DInst) (fs : FS) (e : String × FPath) :
    List (String × FPath) × List (String × FPath × FPath) :=
  let srcPath := getSourcePath inst fs e.1
  if pathExists fs srcPath = false then ([], [])
  else if isSymlink fs e.2 then
    match pyResolve fs e.2, pyResolve fs srcPath with
    | some a, some b =>
      if a = b then ([], [])
      else ([(e.1, e.2)], [(e.1, srcPath, e.2)])
    | _, _ => ([], [(e.1, srcPath, e.2)])
  else if pyResolve fs srcPath = pyResolve fs e.2 then ([], [])
  else if pathExists fs e.2 then ([(e.1, e.2)], [(e.1, srcPath, e.2)])
  else ([], [(e.1, srcPath, e.2)])

/-- The first loop of `install`, accumulating `files_to_backup` and
`files_to_link` in entry order. -/
def planFiles (inst : DInst) (dmap : List (String × FPath)) (fs : FS) :
    List (String × FPath) × List (String × FPath × FPath) :=
  dmap.foldl
    (fun acc e =>
      let d := planEntry inst fs e
      (acc.1 ++ d.1, acc.2 ++ d.2))
    ([], [])

/-- The backup filename `f"{dest_path.name}.backup_{timestamp}"`. -/
def backupName (dest : FPath) (ts : String) : String :=
  pathName dest ++ ".backup_" ++ ts

/-- The body of the `_create_selective_backups` loop for one file. -/
def backupOne (inst : DInst) (ts : String) (now : Nat) (fs : FS)
    (destPath : FPath) : Except FS FS :=
  if pathExists fs destPath || isSymlink fs destPath then
    let backupPath := backupDir inst ++ [backupName destPath ts]
    if isSymlink fs destPath then
      match pyResolve fs destPath with
      | some t =>
        Except.ok (writeText fs backupPath ("Symlink to: " ++ renderPath t ++ "\n") now)
      | none =>
        Except.ok (writeText fs backupPath "Was a symlink (target unresolvable)\n" now)
    else copy2 fs destPath backupPath
  else Except.ok fs

/-- The `_create_selective_backups` loop over the scheduled files, in
order, stopping at the first exception. -/
def backupsGo (inst : DInst) (ts : String) (now : Nat) :
    List (String × FPath) → FS → Except FS FS
  | [], fs => Except.ok fs
  | e :: rest, fs =>
    match backupOne inst ts now fs e.2 with
    | Except.ok fs1 => backupsGo inst ts now rest fs1
    | Except.error fsE => Except.error fsE

/-- `_create_selective_backups` (lines 159-182): create the backup
directory, then back up each scheduled file (copy for regular files, a
textual record for symlinks). -/
def createSelectiveBackups (inst : DInst) (ts : String) (now : Nat)
    (toB : List (String × FPath)) (fs : FS) : Except FS FS :=
  match mkdirSelf fs (backupDir inst) with
  | Except.error fsE => Except.error fsE
  | Except.ok fs0 => backupsGo inst ts now toB fs0

/-- The symlink-creation loop of `install` (lines 113-127): for each
scheduled file, create the destination parent directories, remove any
existing file or link, and symlink the destination to the source. -/
def createLinks : List (String × FPath × FPath) → FS → Except FS FS
  | [], fs => Except.ok fs
  | (_, srcPath, destPath) :: rest, fs =>
    match mkdirAncestors fs destPath with
    | Except.error fsE => Except.error fsE
    | Except.ok fs1 =>
      let fs2 :=
        if pathExists fs1 destPath || isSymlink fs1 destPath then unlinkFS fs1 destPath
        else fs1
      createLinks rest (symlinkTo fs2 destPath srcPath)

/-- The permission mode `_set_permissions` prescribes for a source file:
644 (= 0o644) for `.zshrc`, 600 (= 0o600) for everything else. -/
def prescribedMode (srcName : String) : Nat :=
  if srcName = ".zshrc" then 420 else 384

/-- `_set_permissions` (lines 184-193): re-resolve each source against
the current filesystem and chmod it when it exists. -/
def setPermissions (inst : DInst) (dmap : List (String × FPath)) (fs : FS) : FS :=
  dmap.foldl
    (fun fsCur e =>
      let srcPath := getSourcePath inst fsCur e.1
      if pathExists fsCur srcPath then chmodFS fsCur srcPath (prescribedMode e.1)
      else fsCur)
    fs

/-- The mutating middle of `install`: create backups for the scheduled
files (only when some are scheduled, matching the `if files_to_backup:`
guard), then create the scheduled symlinks. -/
def installLinkPhase (inst : DInst) (ts : String) (now : Nat)
    (plan : List (String × FPath) × List (String × FPath × FPath)) (fs : FS) :
    Except FS FS :=
  match (if plan.1.isEmpty then Except.ok fs
         else createSelectiveBackups inst ts now plan.1 fs) with
  | Except.error fsE => Except.error fsE
  | Except.ok fs1 => createLinks plan.2 fs1

/-- `DotfilesInstaller.install`: plan, back up, link, set permissions;
returns `True` on success, and the outer `except` turns any exception
into `False` with the partial mutations kept. -/
def dotfilesInstall (inst : DInst) (dmap : List (String × FPath))
    (ts : String) (now : Nat) (fs : FS) : Bool × FS :=
  match installLinkPhase inst ts now (planFiles inst dmap fs) fs with
  | Except.error fsE => (false, fsE)
  | Except.ok fs2 => (true, setPermissions inst dmap fs2)

/-! ### `DotfilesInstaller.uninstall` (lines 199-220)

The whole loop runs inside a single `try`; the model threads an oracle
`fails : FPath → Bool` saying which paths' `unlink` raises (for example
from a permission error), to make the exception path expressible. -/

/-- The backup paths matching `f"{name}.backup_*"` in the backup
directory (Python `Path.glob`, which yields entries of any kind in
directory order and yields nothing when the directory is missing). -/
def globBackups (inst : DInst) (fs : FS) (name : String) : List FPath :=
  fs.filterMap
    (fun qe =>
      if qe.1 ≠ [] ∧ qe.1.dropLast = backupDir inst ∧
          (name ++ ".backup_").data.isPrefixOf (pathName qe.1).data then some qe.1
      else none)

/-- The `uninstall` loop: delete each existing target, then restore the
most-recently-modified matching backup if any; the first exception
(injected through `fails`, or a `copy2` failure) aborts the whole loop,
returning `False` with the mutations made so far kept. -/
def uninstallGo (inst : DInst) (fails : FPath → Bool) :
    List (String × FPath) → FS → Bool × FS
  | [], fs => (true, fs)
  | (_, destPath) :: rest, fs =>
    if pathExists fs destPath then
      if fails destPath then (false, fs)
      else
        let fs1 := unlinkFS fs destPath
        let backups := globBackups inst fs1 (pathName destPath)
        match pyMax (statMtime fs1) backups with
        | some latest =>
          match copy2 fs1 latest destPath with
          | Except.ok fs2 => uninstallGo inst fails rest fs2
          | Except.error fsE => (false, fsE)
        | none => uninstallGo inst fails rest fs1
    else uninstallGo inst fails rest fs

/-- `DotfilesInstaller.uninstall`. -/
def dotfilesUninstall (inst : DInst) (dmap : List (String × FPath))
    (fails : FPath → Bool) (fs : FS) : Bool × FS :=
  uninstallGo inst fails dmap fs

/-! ## External command runner (`scripts/installers/base.py`)

`BaseInstaller.run_command` invokes `subprocess.run`.  The outcomes a
Python subprocess call can produce are: the process ran and exited with
some code (nonzero plus `check=True` raises `CalledProcessError`, which
`run_command` catches, logs and re-raises), or the process could not be
launched at all (`subprocess.run` raises `OSError`/`FileNotFoundError`
regardless of `check`; `run_command` does not catch it). -/

/-- A command as handed to `run_command`: an argv list, or a shell line
(`run_command` joins a list with spaces when `shell=True`), each with an
optional working directory. -/
inductive Command where
  | argv (args : List String) (cwd : Option FPath)
  | shellCmd (line : String) (cwd : Option FPath)
  deriving DecidableEq, Repr

/-- What the external process did. -/
inductive CmdOutcome where
  | exits (code : Nat) (out err : String)
  | launchFailure
  deriving DecidableEq, Repr

/-- The environment's behaviour for each external command. -/
abbrev Runner := Command → CmdOutcome

/-- The Python exceptions distinguished by the installers' handlers. -/
inductive PyError where
  | calledProcessError
  | osError
  | appError (msg : String)
  deriving DecidableEq, Repr

/-- `BaseInstaller.run_command`: raises `CalledProcessError` when
`check` is set and the exit code is nonzero; raises `OSError` when the
process cannot be launched; otherwise returns the completed process. -/
def runCommand (r : Runner) (c : Command) (check : Bool) : Except PyError CmdOutcome :=
  match r c with
  | CmdOutcome.launchFailure => Except.error PyError.osError
  | CmdOutcome.exits n out err =>
    if check ∧ n ≠ 0 then Except.error PyError.calledProcessError
    else Except.ok (CmdOutcome.exits n out err)

/-- `BaseInstaller.command_exists` (lines 99-105): probes with
`which <command>` and catches only `CalledProcessError`; any other
exception (for example an `OSError` launching `which`) propagates. -/
def commandExists (r : Runner) (cmd : String) : Except PyError Bool :=
  match runCommand r (Command.argv ["which", cmd] none) true with
  | Except.ok _ => Except.ok true
  | Except.error PyError.calledProcessError => Except.ok false
  | Except.error e => Except.error e

/-! ## ClaudeCodeInstaller (`scripts/installers/claude_code.py`) -/

/-- `self.nvm_dir = self.home / '.nvm'`. -/
def nvmDir (home : FPath) : FPath := home ++ [".nvm"]

/-- The `source {nvm_dir}/nvm.sh && ` prefix used for every NVM-aware
shell command. -/
def nvmPrefix (home : FPath) : String :=
  "source " ++ renderPath (nvmDir home) ++ "/nvm.sh && "

/-- The MCP plugin registration commands (joined as `run_command` does
for `shell=True`). -/
def mcpPluginCmds : List String :=
  ["claude mcp add --transport http context7 https://mcp.context7.com/mcp",
   "claude mcp add --transport http grep https://mcp.grep.app",
   "claude mcp add spec-workflow-mcp -s user -- npx -y spec-workflow-mcp@latest"]

/-- `ClaudeCodeInstaller._check_claude_working`: run
`claude --version` with `check=False` inside a bare `except` that turns
every exception (including a launch failure) into `False`. -/
def checkClaudeWorking (r : Runner) : Bool :=
  match runCommand r (Command.argv ["claude", "--version"] none) false with
  | Except.ok (CmdOutcome.exits n _ _) => decide (n = 0)
  | _ => false

/-- `ClaudeCodeInstaller.is_installed`:
`self.command_exists('claude') and self._check_claude_working()`.
The short-circuit `and` never reaches the second probe when the first
returns false, and an exception from `command_exists` propagates. -/
def claudeIsInstalled (r : Runner) : Except PyError Bool := do
  let b ← commandExists r "claude"
  pure (b && checkClaudeWorking r)

/-- `_is_nvm_installed`: `(self.nvm_dir / 'nvm.sh').exists()`. -/
def nvmInstalled (home : FPath) (fs : FS) : Bool :=
  pathExists fs (nvmDir home ++ ["nvm.sh"])

/-- The NVM shell commands of `_install_node` (all `check=True`). -/
def nodeInstallCmds (home : FPath) : List String :=
  [nvmPrefix home ++ "nvm install lts/*",
   nvmPrefix home ++ "nvm use lts/*",
   nvmPrefix home ++ "nvm alias default lts/*",
   nvmPrefix home ++ "node --version"]

/-- Run a list of shell commands with `check=True`, stopping at the
first exception. -/
def runShellList (r : Runner) : List String → Except PyError Unit
  | [] => Except.ok ()
  | c :: cs =>
    match runCommand r (Command.shellCmd c none) true with
    | Except.ok _ => runShellList r cs
    | Except.error e => Except.error e

/-- `_install_nvm`: download-and-run the installer script, then fail
with a plain `Exception` when `nvm.sh` still does not exist (external
commands do not mutate the modelled filesystem, so the re-check sees the
same state). -/
def installNvm (r : Runner) (home : FPath) (fs : FS) : Except PyError Unit := do
  let _ ← runCommand r
    (Command.shellCmd
      "curl -o- https://raw.githubusercontent.com/nvm-sh/nvm/v0.39.7/install.sh | bash" none)
    true
  if nvmInstalled home fs then Except.ok ()
  else Except.error (PyError.appError "NVM installation failed")

/-- `_install_claude_code`: global npm install (`check=True`), then a
`check=False` verification whose nonzero exit triggers the alternative
curl installer (`check=True`). -/
def installClaudeCode (r : Runner) (home : FPath) : Except PyError Unit := do
  let _ ← runCommand r
    (Command.shellCmd (nvmPrefix home ++ "npm install -g @anthropics/claude-code") none) true
  let res ← runCommand r
    (Command.shellCmd (nvmPrefix home ++ "claude --version") none) false
  match res with
  | CmdOutcome.exits 0 _ _ => Except.ok ()
  | _ => do
    let _ ← runCommand r
      (Command.shellCmd "curl -fsSL https://claude.ai/install.sh | sh" none) true
    Except.ok ()

/-- `_install_mcp_plugins` (lines 147-162): each registration command
runs inside its own `try`; a failure is logged and the loop continues,
so no outcome of these commands is observable to the caller. -/
def installMcpPlugins (r : Runner) (home : FPath) : Unit :=
  (mcpPluginCmds.map
    (fun c => runCommand r (Command.shellCmd (nvmPrefix home ++ c) none) true))
  |> fun _ => ()

/-- The body of `ClaudeCodeInstaller.install` before the outer `try`. -/
def claudeInstallBody (r : Runner) (home : FPath) (fs : FS) : Except PyError Unit := do
  if nvmInstalled home fs then Except.ok () else installNvm r home fs
  runShellList r (nodeInstallCmds home)
  let haveClaude ← commandExists r "claude"
  if haveClaude then Except.ok () else installClaudeCode r home
  pure (installMcpPlugins r home)

/-- `ClaudeCodeInstaller.install`: the outer `try` converts any
exception into a `False` result. -/
def claudeInstall (r : Runner) (home : FPath) (fs : FS) : Bool :=
  match claudeInstallBody r home fs with
  | Except.ok _ => true
  | Except.error _ => false

/-! ## OhMyZshInstaller (`scripts/installers/oh_my_zsh.py`) -/

/-- `self.oh_my_zsh_dir = self.home / '.oh-my-zsh'`. -/
def omzDir (home : FPath) : FPath := home ++ [".oh-my-zsh"]

/-- `self.plugins_dir = self.oh_my_zsh_dir / 'custom' / 'plugins'`. -/
def omzPluginsDir (home : FPath) : FPath := omzDir home ++ ["custom", "plugins"]

/-- The required plugins (name, clone URL), in order. -/
def omzPlugins : List (String × String) :=
  [("zsh-syntax-highlighting", "https://github.com/zsh-users/zsh-syntax-highlighting.git"),
   ("zsh-autosuggestions", "https://github.com/zsh-users/zsh-autosuggestions.git")]

/-- `OhMyZshInstaller.is_installed`:
`self.oh_my_zsh_dir.exists() and (self.oh_my_zsh_dir / 'oh-my-zsh.sh').exists()`.
A pure query: no state output, no exception. -/
def omzIsInstalled (home : FPath) (fs : FS) : Bool :=
  pathExists fs (omzDir home) && pathExists fs (omzDir home ++ ["oh-my-zsh.sh"])

/-- The package-manager attempts of `_install_zsh` (each run with
`shell=True`, so the argv list is joined into one line). -/
def zshPkgCmds : List String :=
  ["sudo apt-get update && sudo apt-get install -y zsh",
   "sudo yum install -y zsh",
   "sudo dnf install -y zsh",
   "sudo pacman -S --noconfirm zsh",
   "brew install zsh"]

/-- `_install_zsh`: try each package manager under a bare `except`
(`continue` on any exception); raise a plain `Exception` when all
fail. -/
def installZsh (r : Runner) : Except PyError Unit :=
  go zshPkgCmds
where
  go : List String → Except PyError Unit
    | [] => Except.error (PyError.appError "Could not install zsh")
    | c :: cs =>
      match runCommand r (Command.shellCmd c none) true with
      | Except.ok _ => Except.ok ()
      | Except.error _ => go cs

/-- `_install_plugins` (lines 97-111): create the plugins directory,
then for each plugin either `git pull` (when present) or `git clone`
(when absent) with `check=True` and, crucially, no per-plugin exception
handler: the first failure propagates out of the loop. -/
def omzInstallPlugins (r : Runner) (home : FPath) (fs : FS) : Except (PyError × FS) FS := do
  let fs1 ←
    match mkdirAll fs (omzPluginsDir home) with
    | Except.ok fs1 => Except.ok fs1
    | Except.error fsE => Except.error (PyError.osError, fsE)
  go fs1 omzPlugins
where
  go (fs1 : FS) : List (String × String) → Except (PyError × FS) FS
    | [] => Except.ok fs1
    | (name, url) :: rest =>
      let pluginPath := omzPluginsDir home ++ [name]
      if pathExists fs1 pluginPath then
        match runCommand r (Command.argv ["git", "pull"] (some pluginPath)) true with
        | Except.ok _ => go fs1 rest
        | Except.error e => Except.error (e, fs1)
      else
        match runCommand r
            (Command.argv ["git", "clone", url, renderPath pluginPath] none) true with
        | Except.ok _ => go fs1 rest
        | Except.error e => Except.error (e, fs1)

/-- `_install_oh_my_zsh`: run the remote install script (`check=True`),
then raise when the marker is still missing (external commands do not
mutate the modelled filesystem). -/
def installOmzFramework (r : Runner) (home : FPath) (fs : FS) : Except PyError Unit := do
  let _ ← runCommand r
    (Command.shellCmd
      "sh -c \"$(curl -fsSL https://raw.githubusercontent.com/ohmyzsh/ohmyzsh/master/tools/install.sh)\" \"\" --unattended"
      none) true
  if omzIsInstalled home fs then Except.ok ()
  else Except.error (PyError.appError "Oh My Zsh installation failed")

/-- The body of `OhMyZshInstaller.install` before the outer `try`.
`_set_default_shell` swallows every exception internally and touches no
modelled state, so it contributes nothing here. -/
def omzInstallBody (r : Runner) (home : FPath) (fs : FS) : Except (PyError × FS) FS := do
  let _ ←
    match commandExists r "zsh" with
    | Except.ok true => Except.ok ()
    | Except.ok false =>
      (match installZsh r with
       | Except.ok u => Except.ok u
       | Except.error e => Except.error (e, fs))
    | Except.error e => Except.error (e, fs)
  let _ ←
    if omzIsInstalled home fs then Except.ok ()
    else
      match installOmzFramework r home fs with
      | Except.ok u => Except.ok u
      | Except.error e => Except.error (e, fs)
  omzInstallPlugins r home fs

/-- `OhMyZshInstaller.install`: the outer `try` converts any exception
into a `False` result, keeping the mutations made so far. -/
def omzInstall (r : Runner) (home : FPath) (fs : FS) : Bool × FS :=
  match omzInstallBody r home fs with
  | Except.ok fs1 => (true, fs1)
  | Except.error (_, fsE) => (false, fsE)

/-- Whether an `lstat` result is a symlink. -/
def isLinkOpt : Option Entry → Bool
  | some (Entry.link _) => true
  | _ => false

/-- An `lstat` result with the permission mode erased. -/
inductive EShape where
  | nothing
  | file (content : String) (mtime : Nat)
  | link (target : FPath)
  | dir
  deriving DecidableEq, Repr

/-- Erase the mode of an `lstat` result. -/
def eshape : Option Entry → EShape
  | none => EShape.nothing
  | some (Entry.file c _ t) => EShape.file c t
  | some (Entry.link t) => EShape.link t
  | some Entry.dir => EShape.dir

/-- Two filesystems agreeing everywhere up to permission modes (the
length is carried along because the resolution fuel depends on it). -/
def ShapeEq (fs1 fs2 : FS) : Prop :=
  fs1.length = fs2.length ∧ ∀ q, eshape (lookupFS fs1 q) = eshape (lookupFS fs2 q)

/-- A runner on which the `which claude` probe itself cannot be
launched (Python: `subprocess.run` raises `FileNotFoundError`), while
every other command exits cleanly. -/
def whichFailRunner : Runner := fun c =>
  if c = Command.argv ["which", "claude"] none then CmdOutcome.launchFailure
  else CmdOutcome.exits 0 "" ""

/-- A runner on which every command exits with code 0. -/
def allOkRunner : Runner := fun _ => CmdOutcome.exits 0 "" ""

/-- The permission mode governing access through a path: the mode of
the regular file the path resolves to (a symlink defers to its
target). -/
def effectiveMode (fs : FS) (p : FPath) : Option Nat :=
  match pyResolve fs p with
  | some z =>
    match lookupFS fs z with
    | some (Entry.file _ m _) => some m
    | _ => none
  | none => none

/-- A concrete installer instance for witnesses and counterexamples. -/
def instC : DInst := ⟨["r"], ["h"]⟩

/-- A concrete filesystem in which all three dotfile entries have their
default source present and their target correctly symlinked; the shell
rc source carries mode `zmode`, the other sources carry 0o600. -/
def fsAllCorrect (zmode : Nat) : FS :=
  [(["r", "configs", "default", ".zshrc"], Entry.file "z" zmode 1),
   (["r", "configs", "default", ".gitconfig"], Entry.file "g" 384 1),
   (["r", "configs", "default", "custom-CLAUDE.md"], Entry.file "c" 384 1),
   (["h", ".zshrc"], Entry.link ["r", "configs", "default", ".zshrc"]),
   (["h", ".gitconfig"], Entry.link ["r", "configs", "default", ".gitconfig"]),
   (["h", ".claude-custom.md"], Entry.link ["r", "configs", "default", "custom-CLAUDE.md"])]

/-- Oracle injecting an `unlink` failure at `["h", "fa"]` only. -/
def failsFa : FPath → Bool := fun p => decide (p = ["h", "fa"])

/-- Oracle with no injected failures. -/
def noFails : FPath → Bool := fun _ => false

/-- Two deployed targets, no backups. -/
def fsTwoTargets : FS :=
  [(["h", "fa"], Entry.file "A" 420 3),
   (["h", "fb"], Entry.file "B" 420 4)]

/-- One deployed target with two timestamped backups of it. -/
def fsWithBackups : FS :=
  [(["h", ".config-backups"], Entry.dir),
   (["h", ".config-backups", "fa.backup_20240101_000001"], Entry.file "old1" 420 5),
   (["h", ".config-backups", "fa.backup_20240101_000002"], Entry.file "old2" 420 9),
   (["h", "fa"], Entry.file "cur" 420 10)]

/-- A filesystem where Oh My Zsh is installed (directory plus marker
script) and no plugins are present. -/
def omzFsInstalled : FS :=
  [(["h", ".oh-my-zsh"], Entry.dir),
   (["h", ".oh-my-zsh", "oh-my-zsh.sh"], Entry.file "" 420 0)]

/-- A runner on which cloning the first Oh My Zsh plugin exits 1 and
every other command exits 0. -/
def cloneFailRunner : Runner := fun c =>
  if c = Command.argv
      ["git", "clone", "https://github.com/zsh-users/zsh-syntax-highlighting.git",
       "/h/.oh-my-zsh/custom/plugins/zsh-syntax-highlighting"] none
  then CmdOutcome.exits 1 "" "clone failed"
  else CmdOutcome.exits 0 "" ""

/-- A filesystem where NVM is installed. -/
def claudeFsNvm : FS := [(["h", ".nvm", "nvm.sh"], Entry.file "" 420 0)]

/-- Well-formedness of a dotfiles map against a filesystem, collecting
the disjointness facts the real layout satisfies (targets are distinct
home entries, the backup directory is a separate home entry, ancestors
of targets are real directories): the backup directory is missing or a
directory; no target lies inside (or at) the backup directory; no
target is currently a directory; every ancestor of a target is missing
or a directory; no target is a strict prefix of another; targets are
distinct. -/
def InstallWF (inst : DInst) (dmap : List (String × FPath)) (fs : FS) : Prop :=
  (lookupFS fs (backupDir inst) = none ∨ lookupFS fs (backupDir inst) = some Entry.dir) ∧
  (∀ e ∈ dmap, ¬ backupDir inst <+: e.2) ∧
  (∀ e ∈ dmap, lookupFS fs e.2 ≠ some Entry.dir) ∧
  (∀ e ∈ dmap, ∀ p ∈ properPrefixes e.2,
    lookupFS fs p = none ∨ lookupFS fs p = some Entry.dir) ∧
  (∀ e ∈ dmap, ∀ e2 ∈ dmap, e.2 ≠ e2.2 → ¬ e.2 <+: e2.2) ∧
  (dmap.map (fun e => e.2)).Nodup

/-- A dangling `.zshrc` symlink next to an existing default source. -/
def fsDangling : FS :=
  [(["r", "configs", "default", ".zshrc"], Entry.file "z" 420 1),
   (["h", ".zshrc"], Entry.link ["r", "configs", "default", ".old-gone"])]

/-- A foreign regular file at the `.zshrc` target next to an existing
default source. -/
def fsForeign : FS :=
  [(["r", "configs", "default", ".zshrc"], Entry.file "new" 420 2),
   (["h", ".zshrc"], Entry.file "oldcontent" 384 1)]

/-- Claim C8 scenario state: only `default/.zshrc` exists, with mode
0o644; nothing is deployed. -/
def fsScenario : FS := [(["r", "configs", "default", ".zshrc"], Entry.file "z" 420 6)]

/-- Whether an `lstat` result is a regular file. -/
def isFileEntry : Option Entry → Bool
  | some (Entry.file ..) => true
  | _ => false

/-! ## Basic lemmas about the filesystem model -/

theorem lookupFS_insertFS_self (fs : FS) (p : FPath) (e : Entry) :
    lookupFS (insertFS fs p e) p = some e := by
  induction fs with
  | nil => simp [insertFS, lookupFS]
  | cons kd rest ih =>
    obtain ⟨k, d⟩ := kd
    by_cases hk : k = p
    · subst hk; simp [insertFS, lookupFS]
    · simp [insertFS, lookupFS, hk, ih]

theorem lookupFS_insertFS_other (fs : FS) (p : FPath) (e : Entry) (q : FPath)
    (hqp : q ≠ p) : lookupFS (insertFS fs p e) q = lookupFS fs q := by
  induction fs with
  | nil => simp [insertFS, lookupFS, Ne.symm hqp]
  | cons kd rest ih =>
    obtain ⟨k, d⟩ := kd
    by_cases hk : k = p
    · subst hk; simp [insertFS, lookupFS, Ne.symm hqp]
    · by_cases hq : k = q
      · subst hq; simp [insertFS, lookupFS, hk]
      · simp [insertFS, lookupFS, hk, hq, ih]

theorem lookupFS_insertFS (fs : FS) (p : FPath) (e : Entry) (q : FPath) :
    lookupFS (insertFS fs p e) q = if q = p then some e else lookupFS fs q := by
  by_cases h : q = p
  · subst h; simp [lookupFS_insertFS_self]
  · simp [h, lookupFS_insertFS_other fs p e q h]

theorem lookupFS_removeFS_self (fs : FS) (p : FPath) :
    lookupFS (removeFS fs p) p = none := by
  induction fs with
  | nil => simp [removeFS, lookupFS]
  | cons kd rest ih =>
    obtain ⟨k, d⟩ := kd
    by_cases hk : k = p
    · subst hk; simpa [removeFS, List.filter_cons, decide_not] using ih
    · simp only [removeFS, List.filter_cons, decide_not] at ih ⊢
      simp [hk, lookupFS, ih]

theorem lookupFS_removeFS_other (fs : FS) (p : FPath) (q : FPath)
    (hqp : q ≠ p) : lookupFS (removeFS fs p) q = lookupFS fs q := by
  induction fs with
  | nil => simp [removeFS, lookupFS]
  | cons kd rest ih =>
    obtain ⟨k, d⟩ := kd
    by_cases hk : k = p
    · subst hk
      simp only [removeFS, List.filter_cons, decide_not] at ih ⊢
      simp [lookupFS, Ne.symm hqp, ih]
    · simp only [removeFS, List.filter_cons, decide_not] at ih ⊢
      by_cases hq : k = q
      · subst hq; simp [hk, lookupFS, ih]
      · simp [hk, hq, lookupFS, ih]

theorem lookupFS_removeFS (fs : FS) (p : FPath) (q : FPath) :
    lookupFS (removeFS fs p) q = if q = p then none else lookupFS fs q := by
  by_cases h : q = p
  · subst h; simp [lookupFS_removeFS_self]
  · simp [h, lookupFS_removeFS_other fs p q h]

theorem insertFS_self (fs : FS) (p : FPath) (e : Entry)
    (h : lookupFS fs p = some e) : insertFS fs p e = fs := by
  induction fs with
  | nil => simp [lookupFS] at h
  | cons kd rest ih =>
    obtain ⟨k, d⟩ := kd
    by_cases hk : k = p
    · subst hk
      simp [lookupFS] at h
      simp [insertFS, h]
    · simp [lookupFS, hk] at h
      simp [insertFS, hk, ih h]

theorem insertFS_length (fs : FS) (p : FPath) (e e0 : Entry)
    (h : lookupFS fs p = some e0) : (insertFS fs p e).length = fs.length := by
  induction fs with
  | nil => simp [lookupFS] at h
  | cons kd rest ih =>
    obtain ⟨k, d⟩ := kd
    by_cases hk : k = p
    · simp [insertFS, hk]
    · simp [lookupFS, hk] at h
      simp [insertFS, hk, ih h]

theorem pyResolve_of_not_link (fs : FS) (p : FPath)
    (h : isLinkOpt (lookupFS fs p) = false) : pyResolve fs p = some p := by
  show resolveMany fs (fs.length + 1) p = some p
  rw [resolveMany]
  cases he : lookupFS fs p with
  | none => simp
  | some e =>
    cases e with
    | file c m t => simp
    | link t => simp [isLinkOpt, he] at h
    | dir => simp

theorem pyResolve_of_none (fs : FS) (p : FPath)
    (h : lookupFS fs p = none) : pyResolve fs p = some p :=
  pyResolve_of_not_link fs p (by simp [isLinkOpt, h])

theorem pyResolve_of_file (fs : FS) (p : FPath) (c : String) (m t : Nat)
    (h : lookupFS fs p = some (Entry.file c m t)) : pyResolve fs p = some p :=
  pyResolve_of_not_link fs p (by simp [isLinkOpt, h])

theorem pathExists_of_file (fs : FS) (p : FPath) (c : String) (m t : Nat)
    (h : lookupFS fs p = some (Entry.file c m t)) : pathExists fs p = true := by
  simp [pathExists, pyResolve_of_file fs p c m t h, h, isExistingKind]

theorem pathExists_of_dir (fs : FS) (p : FPath)
    (h : lookupFS fs p = some Entry.dir) : pathExists fs p = true := by
  have hr : pyResolve fs p = some p := pyResolve_of_not_link fs p (by simp [isLinkOpt, h])
  simp [pathExists, hr, h, isExistingKind]

theorem pathExists_of_lookup_none (fs : FS) (p : FPath)
    (h : lookupFS fs p = none) : pathExists fs p = false := by
  simp [pathExists, pyResolve_of_none fs p h, h, isExistingKind]

theorem lookup_ne_none_of_pathExists (fs : FS) (p : FPath)
    (h : pathExists fs p = true) : lookupFS fs p ≠ none := by
  intro hn
  rw [pathExists_of_lookup_none fs p hn] at h
  exact Bool.false_ne_true h

theorem pyResolve_isSome_of_pathExists (fs : FS) (p : FPath)
    (h : pathExists fs p = true) : ∃ z, pyResolve fs p = some z := by
  unfold pathExists at h
  cases hr : pyResolve fs p with
  | none => rw [hr] at h; simp at h
  | some z => exact ⟨z, rfl⟩

theorem isSymlink_eq_isLinkOpt (fs : FS) (p : FPath) :
    isSymlink fs p = isLinkOpt (lookupFS fs p) := by
  unfold isSymlink isLinkOpt
  cases lookupFS fs p with
  | none => rfl
  | some e => cases e <;> rfl

/-! ## Mode-erased shape of a filesystem

`chmod` changes only permission modes; every other observation
(existence, resolution, link targets, contents, mtimes) is preserved.
`EShape` erases the mode field so this can be stated once. -/

theorem shapeEq_refl (fs : FS) : ShapeEq fs fs := ⟨rfl, fun _ => rfl⟩

theorem shapeEq_trans {fs1 fs2 fs3 : FS} (h1 : ShapeEq fs1 fs2)
    (h2 : ShapeEq fs2 fs3) : ShapeEq fs1 fs3 :=
  ⟨h1.1.trans h2.1, fun q => (h1.2 q).trans (h2.2 q)⟩

theorem eshape_link_elim {o : Option Entry} {t : FPath}
    (h : eshape o = EShape.link t) : o = some (Entry.link t) := by
  match o with
  | none => simp [eshape] at h
  | some (Entry.file c m t') => simp [eshape] at h
  | some (Entry.link t') => simp [eshape] at h; rw [h]
  | some Entry.dir => simp [eshape] at h

theorem eshape_file_elim {o : Option Entry} {c : String} {t : Nat}
    (h : eshape o = EShape.file c t) : ∃ m, o = some (Entry.file c m t) := by
  match o with
  | none => simp [eshape] at h
  | some (Entry.file c' m t') =>
    simp [eshape] at h
    exact ⟨m, by rw [h.1, h.2]⟩
  | some (Entry.link t') => simp [eshape] at h
  | some Entry.dir => simp [eshape] at h

theorem eshape_nothing_elim {o : Option Entry}
    (h : eshape o = EShape.nothing) : o = none := by
  match o with
  | none => rfl
  | some (Entry.file c m t) => simp [eshape] at h
  | some (Entry.link t) => simp [eshape] at h
  | some Entry.dir => simp [eshape] at h

theorem eshape_dir_elim {o : Option Entry}
    (h : eshape o = EShape.dir) : o = some Entry.dir := by
  match o with
  | none => simp [eshape] at h
  | some (Entry.file c m t) => simp [eshape] at h
  | some (Entry.link t) => simp [eshape] at h
  | some Entry.dir => rfl

theorem shapeEq_resolveMany {fs1 fs2 : FS} (h : ShapeEq fs1 fs2)
    (fuel : Nat) (p : FPath) : resolveMany fs1 fuel p = resolveMany fs2 fuel p := by
  induction fuel generalizing p with
  | zero => rfl
  | succ n ih =>
    rw [resolveMany, resolveMany]
    cases h1 : lookupFS fs1 p with
    | none =>
      have := h.2 p
      rw [h1] at this
      rw [eshape_nothing_elim this.symm]
    | some e =>
      have hsh := h.2 p
      rw [h1] at hsh
      cases e with
      | file c m t =>
        obtain ⟨m2, hm2⟩ := eshape_file_elim (o := lookupFS fs2 p) hsh.symm
        rw [hm2]
      | link t =>
        rw [eshape_link_elim (o := lookupFS fs2 p) hsh.symm]
        exact ih t
      | dir =>
        rw [eshape_dir_elim (o := lookupFS fs2 p) hsh.symm]

theorem shapeEq_pyResolve {fs1 fs2 : FS} (h : ShapeEq fs1 fs2) (p : FPath) :
    pyResolve fs1 p = pyResolve fs2 p := by
  unfold pyResolve
  rw [h.1]
  exact shapeEq_resolveMany h _ p

theorem isExistingKind_congr {o1 o2 : Option Entry} (h : eshape o1 = eshape o2) :
    isExistingKind o1 = isExistingKind o2 := by
  cases o1 with
  | none => rw [eshape_nothing_elim h.symm]
  | some e =>
    cases e with
    | file c m t =>
      obtain ⟨m2, hm2⟩ := eshape_file_elim (o := o2) h.symm
      rw [hm2]; rfl
    | link t => rw [eshape_link_elim (o := o2) h.symm]
    | dir => rw [eshape_dir_elim (o := o2) h.symm]

theorem isLinkOpt_congr {o1 o2 : Option Entry} (h : eshape o1 = eshape o2) :
    isLinkOpt o1 = isLinkOpt o2 := by
  cases o1 with
  | none => rw [eshape_nothing_elim h.symm]
  | some e =>
    cases e with
    | file c m t =>
      obtain ⟨m2, hm2⟩ := eshape_file_elim (o := o2) h.symm
      rw [hm2]; rfl
    | link t => rw [eshape_link_elim (o := o2) h.symm]
    | dir => rw [eshape_dir_elim (o := o2) h.symm]

theorem mtimeOpt_congr {o1 o2 : Option Entry} (h : eshape o1 = eshape o2) :
    mtimeOpt o1 = mtimeOpt o2 := by
  cases o1 with
  | none => rw [eshape_nothing_elim h.symm]
  | some e =>
    cases e with
    | file c m t =>
      obtain ⟨m2, hm2⟩ := eshape_file_elim (o := o2) h.symm
      rw [hm2]; rfl
    | link t => rw [eshape_link_elim (o := o2) h.symm]
    | dir => rw [eshape_dir_elim (o := o2) h.symm]

theorem shapeEq_pathExists {fs1 fs2 : FS} (h : ShapeEq fs1 fs2) (p : FPath) :
    pathExists fs1 p = pathExists fs2 p := by
  unfold pathExists
  rw [shapeEq_pyResolve h p]
  cases pyResolve fs2 p with
  | none => rfl
  | some z => exact isExistingKind_congr (h.2 z)

theorem shapeEq_isSymlink {fs1 fs2 : FS} (h : ShapeEq fs1 fs2) (p : FPath) :
    isSymlink fs1 p = isSymlink fs2 p := by
  rw [isSymlink_eq_isLinkOpt, isSymlink_eq_isLinkOpt]
  exact isLinkOpt_congr (h.2 p)

theorem shapeEq_statMtime {fs1 fs2 : FS} (h : ShapeEq fs1 fs2) (p : FPath) :
    statMtime fs1 p = statMtime fs2 p := by
  unfold statMtime
  rw [shapeEq_pyResolve h p]
  cases pyResolve fs2 p with
  | none => rfl
  | some z => exact mtimeOpt_congr (h.2 z)

theorem shapeEq_getSourcePath {fs1 fs2 : FS} (h : ShapeEq fs1 fs2)
    (inst : DInst) (n : String) :
    getSourcePath inst fs1 n = getSourcePath inst fs2 n := by
  unfold getSourcePath
  dsimp only
  rw [shapeEq_pathExists h (configsDir inst ++ ["personal", n]),
    shapeEq_pathExists h (configsDir inst ++ ["default", n])]

theorem chmodFS_shapeEq (fs : FS) (p : FPath) (m : Nat) :
    ShapeEq fs (chmodFS fs p m) := by
  unfold chmodFS
  split
  · rename_i z hz
    split
    · rename_i c m0 t he
      constructor
      · exact (insertFS_length fs z (Entry.file c m t) (Entry.file c m0 t) he).symm
      · intro q
        rw [lookupFS_insertFS]
        by_cases hq : q = z
        · subst hq; rw [if_pos rfl, he]; rfl
        · rw [if_neg hq]
    · exact shapeEq_refl fs
  · exact shapeEq_refl fs

theorem setPermissions_shapeEq (inst : DInst) (dmap : List (String × FPath)) (fs : FS) :
    ShapeEq fs (setPermissions inst dmap fs) := by
  unfold setPermissions
  induction dmap generalizing fs with
  | nil => exact shapeEq_refl fs
  | cons e rest ih =>
    rw [List.foldl_cons]
    refine shapeEq_trans ?_ (ih _)
    by_cases hex : pathExists fs (getSourcePath inst fs e.1)
    · simp only [hex, if_true]
      exact chmodFS_shapeEq fs _ _
    · simp only [hex, if_false]
      exact shapeEq_refl fs

/-- Content (and link) preservation through `_set_permissions`: a link
entry survives unchanged. -/
theorem setPermissions_link (inst : DInst) (dmap : List (String × FPath)) (fs : FS)
    (q : FPath) (t : FPath) (h : lookupFS fs q = some (Entry.link t)) :
    lookupFS (setPermissions inst dmap fs) q = some (Entry.link t) := by
  have hs := (setPermissions_shapeEq inst dmap fs).2 q
  rw [h] at hs
  exact eshape_link_elim (o := lookupFS (setPermissions inst dmap fs) q) hs.symm

/-- A regular file keeps its content and mtime through
`_set_permissions` (only the mode may change). -/
theorem setPermissions_file (inst : DInst) (dmap : List (String × FPath)) (fs : FS)
    (q : FPath) (c : String) (m t : Nat) (h : lookupFS fs q = some (Entry.file c m t)) :
    ∃ m2, lookupFS (setPermissions inst dmap fs) q = some (Entry.file c m2 t) := by
  have hs := (setPermissions_shapeEq inst dmap fs).2 q
  rw [h] at hs
  exact eshape_file_elim (o := lookupFS (setPermissions inst dmap fs) q) hs.symm

/-! ## Claims C1 and C10: `is_installed` -/

/-- Evaluation lemmas for `classify`. -/
theorem classify_absent (fs : FS) (s d : FPath) (h : lookupFS fs d = none) :
    classify fs s d = DeploymentState.Absent := by
  simp [classify, h]

theorem classify_link (fs : FS) (s d : FPath) (t : FPath)
    (h : lookupFS fs d = some (Entry.link t)) :
    classify fs s d =
      (if pathExists fs d = true ∧ pyResolve fs d = pyResolve fs s then
        DeploymentState.CorrectLink
      else DeploymentState.WrongLink) := by
  simp [classify, h]

theorem classify_file (fs : FS) (s d : FPath) (c : String) (m t : Nat)
    (h : lookupFS fs d = some (Entry.file c m t)) :
    classify fs s d =
      (if pyResolve fs d = pyResolve fs s then DeploymentState.SameFile
      else DeploymentState.ForeignFile) := by
  simp [classify, h]

theorem classify_dir (fs : FS) (s d : FPath) (h : lookupFS fs d = some Entry.dir) :
    classify fs s d =
      (if pyResolve fs d = pyResolve fs s then DeploymentState.SameFile
      else DeploymentState.ForeignFile) := by
  simp [classify, h]

/-- Bridge between the transcribed `is_installed` loop body and the
spec-level `DeploymentState` classification, entry by entry. -/
theorem isInstalledEntry_iff (inst : DInst) (fs : FS) (e : String × FPath) :
    isInstalledEntry inst fs e = true ↔
      (pathExists fs (getSourcePath inst fs e.1) = true →
        classify fs (getSourcePath inst fs e.1) e.2 = DeploymentState.SameFile ∨
        classify fs (getSourcePath inst fs e.1) e.2 = DeploymentState.CorrectLink) := by
  by_cases hs : pathExists fs (getSourcePath inst fs e.1) = true
  · by_cases hd : pathExists fs e.2 = true
    · by_cases heq : pyResolve fs (getSourcePath inst fs e.1) = pyResolve fs e.2
      · apply iff_of_true
        · simp [isInstalledEntry, hs, hd, heq]
        · intro _
          cases hld : lookupFS fs e.2 with
          | none => exact absurd hld (lookup_ne_none_of_pathExists fs e.2 hd)
          | some ent =>
            cases ent with
            | link t =>
              right
              rw [classify_link fs _ e.2 t hld, if_pos ⟨hd, heq.symm⟩]
            | file c m t =>
              left
              rw [classify_file fs _ e.2 c m t hld, if_pos heq.symm]
            | dir =>
              left
              rw [classify_dir fs _ e.2 hld, if_pos heq.symm]
      · have hne2 : ¬ pyResolve fs e.2 = pyResolve fs (getSourcePath inst fs e.1) :=
          fun hcon => heq hcon.symm
        apply iff_of_false
        · obtain ⟨za, hza⟩ := pyResolve_isSome_of_pathExists fs e.2 hd
          obtain ⟨zb, hzb⟩ := pyResolve_isSome_of_pathExists fs _ hs
          have hne : ¬ za = zb := by
            intro hcon
            exact heq (by rw [hza, hzb, hcon])
          have hne' : ¬ zb = za := fun hcon => hne hcon.symm
          simp [isInstalledEntry, hs, hd, heq, hza, hzb, hne, hne']
        · intro hcon
          rcases hcon hs with hcl | hcl <;>
          · cases hld : lookupFS fs e.2 with
            | none => rw [classify_absent fs _ e.2 hld] at hcl; exact absurd hcl (by simp)
            | some ent =>
              cases ent with
              | link t =>
                rw [classify_link fs _ e.2 t hld,
                  if_neg (fun hcon2 => hne2 hcon2.2)] at hcl
                exact absurd hcl (by simp)
              | file c m t =>
                rw [classify_file fs _ e.2 c m t hld, if_neg hne2] at hcl
                exact absurd hcl (by simp)
              | dir =>
                rw [classify_dir fs _ e.2 hld, if_neg hne2] at hcl
                exact absurd hcl (by simp)
    · apply iff_of_false
      · simp [isInstalledEntry, hs, hd]
      · intro hcon
        have hnex : ¬ (pathExists fs e.2 = true ∧
            pyResolve fs e.2 = pyResolve fs (getSourcePath inst fs e.1)) :=
          fun hcon2 => hd hcon2.1
        rcases hcon hs with hcl | hcl <;>
        · cases hld : lookupFS fs e.2 with
          | none => rw [classify_absent fs _ e.2 hld] at hcl; exact absurd hcl (by simp)
          | some ent =>
            cases ent with
            | link t =>
              rw [classify_link fs _ e.2 t hld, if_neg hnex] at hcl
              exact absurd hcl (by simp)
            | file c m t => exact absurd (pathExists_of_file fs e.2 c m t hld) hd
            | dir => exact absurd (pathExists_of_dir fs e.2 hld) hd
  · apply iff_of_true
    · simp [isInstalledEntry, hs]
    · intro hcon; exact absurd hcon hs

/-- Claim C1: `DotfilesInstaller.is_installed` returns true exactly when
every dotfile entry whose resolved source exists has its target in state
`SameFile` or `CorrectLink`; any entry in state `Absent`, `WrongLink`
(wrong-target or broken symlink) or `ForeignFile` makes it false. -/
theorem c1_is_installed_iff (inst : DInst) (dmap : List (String × FPath)) (fs : FS) :
    dotfilesIsInstalled inst dmap fs = true ↔
      ∀ e ∈ dmap, pathExists fs (getSourcePath inst fs e.1) = true →
        classify fs (getSourcePath inst fs e.1) e.2 = DeploymentState.SameFile ∨
        classify fs (getSourcePath inst fs e.1) e.2 = DeploymentState.CorrectLink := by
  unfold dotfilesIsInstalled
  rw [List.all_eq_true]
  constructor
  · intro h e he
    exact (isInstalledEntry_iff inst fs e).mp (h e he)
  · intro h e he
    exact (isInstalledEntry_iff inst fs e).mpr (h e he)

/-- Claim C10: when no dotfile entry has any existing source candidate,
`is_installed` is vacuously true: every entry with a missing source is
skipped by the all-entries check rather than counting against it. -/
theorem c10_no_sources_vacuously_installed (inst : DInst)
    (dmap : List (String × FPath)) (fs : FS)
    (h : ∀ e ∈ dmap, ∀ c ∈ candidatePaths inst e.1, pathExists fs c = false) :
    dotfilesIsInstalled inst dmap fs = true := by
  unfold dotfilesIsInstalled
  rw [List.all_eq_true]
  intro e he
  have h1 := h e he (configsDir inst ++ ["personal", e.1]) (by simp [candidatePaths])
  have h2 := h e he (configsDir inst ++ ["default", e.1]) (by simp [candidatePaths])
  have h3 := h e he (inst.repoRoot ++ [e.1]) (by simp [candidatePaths])
  have hgsp : getSourcePath inst fs e.1 = inst.repoRoot ++ [e.1] := by
    unfold getSourcePath
    dsimp only
    rw [h1, h2]
    simp
  simp [isInstalledEntry, hgsp, h3]

/-- Witness for C10 at a concrete state: a target file is deployed but
no source candidate exists anywhere, and `is_installed` reports true. -/
theorem c10_no_sources_vacuously_installed_witness :
    dotfilesIsInstalled ⟨["repo"], ["home"]⟩ (dotfilesMap ⟨["repo"], ["home"]⟩)
      [(["home", ".zshrc"], Entry.file "old" 420 5)] = true :=
  c10_no_sources_vacuously_installed _ _ _ (by decide)

/-! ## Claim C5: `is_installed` never raises? -/

/-- Counterexample to claim C5: when the `which claude` probe cannot be
launched, `ClaudeCodeInstaller.is_installed` does not return false — the
`OSError` escapes `command_exists` (which catches only
`CalledProcessError`) and propagates out of `is_installed`. -/
theorem c5_counterexample :
    claudeIsInstalled whichFailRunner = Except.error PyError.osError ∧
      claudeIsInstalled whichFailRunner ≠ Except.ok false := by
  refine ⟨rfl, ?_⟩
  intro h
  exact Except.noConfusion h

/-- Claim C5 (amended): `is_installed` performs only read probes, and a
probe that runs and exits nonzero is converted into a `false` result;
but an OS-level failure to launch the probe propagates out of
`ClaudeCodeInstaller.is_installed` as an exception instead of producing
`false`. -/
theorem c5_amended_is_installed_failure_modes (r : Runner) :
    (∀ out err, r (Command.argv ["which", "claude"] none) = CmdOutcome.exits 0 out err →
      claudeIsInstalled r = Except.ok (checkClaudeWorking r)) ∧
    (∀ n out err, n ≠ 0 →
      r (Command.argv ["which", "claude"] none) = CmdOutcome.exits n out err →
      claudeIsInstalled r = Except.ok false) ∧
    (r (Command.argv ["which", "claude"] none) = CmdOutcome.launchFailure →
      claudeIsInstalled r = Except.error PyError.osError) := by
  refine ⟨?_, ?_, ?_⟩
  · intro out err h
    simp [claudeIsInstalled, commandExists, runCommand, h, Bind.bind, Except.bind, pure,
      Except.pure]
  · intro n out err hn h
    simp [claudeIsInstalled, commandExists, runCommand, h, hn, Bind.bind, Except.bind, pure,
      Except.pure]
  · intro h
    simp [claudeIsInstalled, commandExists, runCommand, h, Bind.bind, Except.bind]

/-- Witness for the amended C5 at a concrete runner on which the probe
exits 0: `is_installed` returns an ordinary boolean. -/
theorem c5_amended_is_installed_failure_modes_witness :
    claudeIsInstalled allOkRunner = Except.ok true := by
  have h := (c5_amended_is_installed_failure_modes allOkRunner).1 "" "" rfl
  rw [h]
  rfl

/-! ## Structure of the install plan -/

theorem planFiles_acc (inst : DInst) (dmap : List (String × FPath)) (fs : FS)
    (acc : List (String × FPath) × List (String × FPath × FPath)) :
    dmap.foldl
      (fun acc e =>
        let d := planEntry inst fs e
        (acc.1 ++ d.1, acc.2 ++ d.2)) acc =
      (acc.1 ++ (planFiles inst dmap fs).1, acc.2 ++ (planFiles inst dmap fs).2) := by
  induction dmap generalizing acc with
  | nil => simp [planFiles]
  | cons e rest ih =>
    rw [planFiles, List.foldl_cons, List.foldl_cons, ih, ih]
    simp

theorem planFiles_cons (inst : DInst) (e : String × FPath)
    (dmap : List (String × FPath)) (fs : FS) :
    planFiles inst (e :: dmap) fs =
      ((planEntry inst fs e).1 ++ (planFiles inst dmap fs).1,
       (planEntry inst fs e).2 ++ (planFiles inst dmap fs).2) := by
  rw [planFiles, List.foldl_cons, planFiles_acc]
  simp

theorem planFiles_append (inst : DInst) (l1 l2 : List (String × FPath)) (fs : FS) :
    planFiles inst (l1 ++ l2) fs =
      ((planFiles inst l1 fs).1 ++ (planFiles inst l2 fs).1,
       (planFiles inst l1 fs).2 ++ (planFiles inst l2 fs).2) := by
  induction l1 with
  | nil => simp [planFiles]
  | cons e rest ih =>
    rw [List.cons_append, planFiles_cons, planFiles_cons, ih]
    simp

/-- The two lists an entry can contribute to the plan. -/
theorem planEntry_cases (inst : DInst) (fs : FS) (e : String × FPath) :
    ((planEntry inst fs e).1 = [] ∨ (planEntry inst fs e).1 = [(e.1, e.2)]) ∧
    ((planEntry inst fs e).2 = [] ∨
      (planEntry inst fs e).2 = [(e.1, getSourcePath inst fs e.1, e.2)]) := by
  unfold planEntry
  dsimp only
  by_cases h1 : pathExists fs (getSourcePath inst fs e.1) = false
  · simp [h1]
  · rw [if_neg h1]
    by_cases h2 : isSymlink fs e.2 = true
    · rw [if_pos h2]
      cases ha : pyResolve fs e.2 with
      | none => cases hb : pyResolve fs (getSourcePath inst fs e.1) <;> simp
      | some a =>
        cases hb : pyResolve fs (getSourcePath inst fs e.1) with
        | none => simp
        | some b => by_cases hab : a = b <;> simp [hab]
    · rw [if_neg h2]
      by_cases h3 : pyResolve fs (getSourcePath inst fs e.1) = pyResolve fs e.2
      · simp [h3]
      · rw [if_neg h3]
        by_cases h4 : pathExists fs e.2 = true <;> simp [h4]

/-- Every scheduled backup is one of the map's entries. -/
theorem planFiles_toB_mem (inst : DInst) (dmap : List (String × FPath)) (fs : FS)
    (x : String × FPath) (hx : x ∈ (planFiles inst dmap fs).1) : x ∈ dmap := by
  induction dmap with
  | nil => simp [planFiles] at hx
  | cons e rest ih =>
    rw [planFiles_cons] at hx
    rcases List.mem_append.mp hx with hx1 | hx2
    · rcases (planEntry_cases inst fs e).1 with hc | hc
      · rw [hc] at hx1; simp at hx1
      · rw [hc] at hx1
        have hxe : x = e := by simpa using hx1
        rw [hxe]
        exact List.mem_cons_self e rest
    · exact List.mem_cons_of_mem e (ih hx2)

/-- Every scheduled link is one of the map's entries, paired with the
source resolved against the original filesystem. -/
theorem planFiles_toL_mem (inst : DInst) (dmap : List (String × FPath)) (fs : FS)
    (y : String × FPath × FPath) (hy : y ∈ (planFiles inst dmap fs).2) :
    (y.1, y.2.2) ∈ dmap ∧ y.2.1 = getSourcePath inst fs y.1 := by
  induction dmap with
  | nil => simp [planFiles] at hy
  | cons e rest ih =>
    rw [planFiles_cons] at hy
    rcases List.mem_append.mp hy with hy1 | hy2
    · rcases (planEntry_cases inst fs e).2 with hc | hc
      · rw [hc] at hy1; simp at hy1
      · rw [hc] at hy1
        have hye : y = (e.1, getSourcePath inst fs e.1, e.2) := by simpa using hy1
        subst hye
        exact ⟨List.mem_cons_self e rest, rfl⟩
    · exact ⟨List.mem_cons_of_mem e (ih hy2).1, (ih hy2).2⟩

/-! ## Frame lemmas for the install phases -/

theorem properPrefixes_mem (p : FPath) (q : FPath) (h : q ∈ properPrefixes p) :
    q <+: p ∧ q.length < p.length := by
  induction p generalizing q with
  | nil => simp [properPrefixes] at h
  | cons x xs ih =>
    rw [properPrefixes] at h
    rcases List.mem_cons.mp h with h1 | h2
    · subst h1
      exact ⟨List.nil_prefix, by simp⟩
    · obtain ⟨q', hq', rfl⟩ := List.mem_map.mp h2
      obtain ⟨hp, hl⟩ := ih q' hq'
      exact ⟨List.cons_prefix_cons.mpr ⟨rfl, hp⟩, by simpa using hl⟩

theorem mkdirSelf_frame (fs fs' : FS) (p : FPath)
    (h : mkdirSelf fs p = Except.ok fs') (q : FPath) (hq : q ≠ p) :
    lookupFS fs' q = lookupFS fs q := by
  unfold mkdirSelf at h
  split at h
  · cases h
    exact lookupFS_insertFS_other fs p Entry.dir q hq
  · cases h; rfl
  · exact Except.noConfusion h

theorem mkdirList_frame (ps : List FPath) (fs fs' : FS)
    (h : mkdirList fs ps = Except.ok fs') (q : FPath) (hq : q ∉ ps) :
    lookupFS fs' q = lookupFS fs q := by
  induction ps generalizing fs with
  | nil => cases h; rfl
  | cons p rest ih =>
    rw [mkdirList] at h
    cases hm : mkdirSelf fs p with
    | ok fs1 =>
      rw [hm] at h
      have hq1 : q ∉ rest := fun hc => hq (List.mem_cons_of_mem p hc)
      have hqp : q ≠ p := fun hc => hq (hc ▸ List.mem_cons_self p rest)
      rw [ih fs1 h hq1, mkdirSelf_frame fs fs1 p hm q hqp]
    | error fsE => rw [hm] at h; exact Except.noConfusion h

theorem mkdirAncestors_frame (fs fs' : FS) (d : FPath)
    (h : mkdirAncestors fs d = Except.ok fs') (q : FPath) (hq : ¬ q <+: d) :
    lookupFS fs' q = lookupFS fs q := by
  refine mkdirList_frame _ fs fs' h q (fun hc => ?_)
  exact hq (properPrefixes_mem d q hc).1

theorem backupOne_frame (inst : DInst) (ts : String) (now : Nat) (fs fs' : FS)
    (d : FPath) (h : backupOne inst ts now fs d = Except.ok fs')
    (q : FPath) (hq : ¬ backupDir inst <+: q) :
    lookupFS fs' q = lookupFS fs q := by
  have hbq : q ≠ backupDir inst ++ [backupName d ts] := by
    intro hc
    exact hq (hc ▸ List.prefix_append _ _)
  unfold backupOne at h
  split at h
  · split at h
    · split at h
      · cases h
        exact lookupFS_insertFS_other fs _ _ q hbq
      · cases h
        exact lookupFS_insertFS_other fs _ _ q hbq
    · unfold copy2 at h
      split at h
      · split at h
        · cases h
          exact lookupFS_insertFS_other fs _ _ q hbq
        · exact Except.noConfusion h
      · exact Except.noConfusion h
  · cases h; rfl

theorem backupsGo_frame (inst : DInst) (ts : String) (now : Nat)
    (toB : List (String × FPath)) (fs fs' : FS)
    (h : backupsGo inst ts now toB fs = Except.ok fs')
    (q : FPath) (hq : ¬ backupDir inst <+: q) :
    lookupFS fs' q = lookupFS fs q := by
  induction toB generalizing fs with
  | nil => cases h; rfl
  | cons e rest ih =>
    rw [backupsGo] at h
    cases hb : backupOne inst ts now fs e.2 with
    | ok fs1 =>
      rw [hb] at h
      rw [ih fs1 h, backupOne_frame inst ts now fs fs1 e.2 hb q hq]
    | error fsE => rw [hb] at h; exact Except.noConfusion h

theorem createSelectiveBackups_frame (inst : DInst) (ts : String) (now : Nat)
    (toB : List (String × FPath)) (fs fs' : FS)
    (h : createSelectiveBackups inst ts now toB fs = Except.ok fs')
    (q : FPath) (hq : ¬ backupDir inst <+: q) :
    lookupFS fs' q = lookupFS fs q := by
  unfold createSelectiveBackups at h
  cases hm : mkdirSelf fs (backupDir inst) with
  | ok fs0 =>
    rw [hm] at h
    have hqbd : q ≠ backupDir inst := fun hc => hq (hc ▸ List.prefix_refl _)
    rw [backupsGo_frame inst ts now toB fs0 fs' h q hq,
      mkdirSelf_frame fs fs0 _ hm q hqbd]
  | error fsE => rw [hm] at h; exact Except.noConfusion h

theorem createLinks_frame (toL : List (String × FPath × FPath)) (fs fs' : FS)
    (h : createLinks toL fs = Except.ok fs')
    (q : FPath) (hq : ∀ y ∈ toL, ¬ q <+: y.2.2) :
    lookupFS fs' q = lookupFS fs q := by
  induction toL generalizing fs with
  | nil => cases h; rfl
  | cons y rest ih =>
    obtain ⟨n, s, d⟩ := y
    have hqd : ¬ q <+: d := hq (n, s, d) (List.mem_cons_self _ _)
    have hqd' : q ≠ d := fun hc => hqd (hc ▸ List.prefix_refl _)
    rw [createLinks] at h
    cases hm : mkdirAncestors fs d with
    | ok fs1 =>
      rw [hm] at h
      have hrest : ∀ y ∈ rest, ¬ q <+: y.2.2 :=
        fun y hy => hq y (List.mem_cons_of_mem _ hy)
      rw [ih _ h hrest]
      unfold symlinkTo
      rw [lookupFS_insertFS_other _ _ _ q hqd']
      split
      · unfold unlinkFS
        rw [lookupFS_removeFS_other _ _ _ hqd']
        exact mkdirAncestors_frame fs fs1 d hm q hqd
      · exact mkdirAncestors_frame fs fs1 d hm q hqd
    | error fsE => rw [hm] at h; exact Except.noConfusion h

/-! ## Claim C7: source resolution and skipping of sourceless entries -/

theorem setPermissions_append (inst : DInst) (l1 l2 : List (String × FPath)) (fs : FS) :
    setPermissions inst (l1 ++ l2) fs = setPermissions inst l2 (setPermissions inst l1 fs) := by
  unfold setPermissions
  rw [List.foldl_append]

theorem setPermissions_skip_entry (inst : DInst) (e : String × FPath)
    (l2 : List (String × FPath)) (fs : FS)
    (h : ∀ c ∈ candidatePaths inst e.1, pathExists fs c = false) :
    setPermissions inst (e :: l2) fs = setPermissions inst l2 fs := by
  have h1 := h (configsDir inst ++ ["personal", e.1]) (by simp [candidatePaths])
  have h2 := h (configsDir inst ++ ["default", e.1]) (by simp [candidatePaths])
  have h3 := h (inst.repoRoot ++ [e.1]) (by simp [candidatePaths])
  have hg : getSourcePath inst fs e.1 = inst.repoRoot ++ [e.1] := by
    unfold getSourcePath
    dsimp only
    rw [h1, h2]
    simp
  unfold setPermissions
  rw [List.foldl_cons]
  congr 1
  dsimp only
  rw [hg, h3]
  simp

/-- An entry whose source candidates are all missing contributes
nothing to the install plan. -/
theorem planEntry_skip (inst : DInst) (fs : FS) (e : String × FPath)
    (h : ∀ c ∈ candidatePaths inst e.1, pathExists fs c = false) :
    planEntry inst fs e = ([], []) := by
  have h1 := h (configsDir inst ++ ["personal", e.1]) (by simp [candidatePaths])
  have h2 := h (configsDir inst ++ ["default", e.1]) (by simp [candidatePaths])
  have h3 := h (inst.repoRoot ++ [e.1]) (by simp [candidatePaths])
  have hg : getSourcePath inst fs e.1 = inst.repoRoot ++ [e.1] := by
    unfold getSourcePath
    dsimp only
    rw [h1, h2]
    simp
  unfold planEntry
  dsimp only
  rw [hg, h3]
  simp

/-- Claim C7: for every dotfile entry the source is resolved by
checking the personal override, then the default path, then the legacy
repository-root fallback, first existing candidate winning; an entry
with no existing candidate is skipped by `install` and contributes no
state to subsequent checks (removing it changes neither the result of
`is_installed` nor the result and final state of `install`). -/
theorem c7_source_resolution_and_skip (inst : DInst) (fs : FS) :
    (∀ m : String, pathExists fs (configsDir inst ++ ["personal", m]) = true →
      getSourcePath inst fs m = configsDir inst ++ ["personal", m]) ∧
    (∀ m : String, pathExists fs (configsDir inst ++ ["personal", m]) = false →
      pathExists fs (configsDir inst ++ ["default", m]) = true →
      getSourcePath inst fs m = configsDir inst ++ ["default", m]) ∧
    (∀ m : String, pathExists fs (configsDir inst ++ ["personal", m]) = false →
      pathExists fs (configsDir inst ++ ["default", m]) = false →
      getSourcePath inst fs m = inst.repoRoot ++ [m]) ∧
    (∀ (pre post : List (String × FPath)) (n : String) (d : FPath),
      (∀ c ∈ candidatePaths inst n, pathExists fs c = false) →
      dotfilesIsInstalled inst (pre ++ (n, d) :: post) fs =
        dotfilesIsInstalled inst (pre ++ post) fs) ∧
    (∀ (pre post : List (String × FPath)) (n : String) (d : FPath) (ts : String) (now : Nat),
      (∀ c ∈ candidatePaths inst n, lookupFS fs c = none) →
      (∀ c ∈ candidatePaths inst n, ¬ backupDir inst <+: c) →
      (∀ c ∈ candidatePaths inst n, ∀ e' ∈ pre ++ post, ¬ c <+: e'.2) →
      dotfilesInstall inst (pre ++ (n, d) :: post) ts now fs =
        dotfilesInstall inst (pre ++ post) ts now fs) := by
  refine ⟨?_, ?_, ?_, ?_, ?_⟩
  · intro m h1
    unfold getSourcePath
    dsimp only
    rw [h1]
    simp
  · intro m h1 h2
    unfold getSourcePath
    dsimp only
    rw [h1, h2]
    simp
  · intro m h1 h2
    unfold getSourcePath
    dsimp only
    rw [h1, h2]
    simp
  · intro pre post n d hc
    have h1 := hc (configsDir inst ++ ["personal", n]) (by simp [candidatePaths])
    have h2 := hc (configsDir inst ++ ["default", n]) (by simp [candidatePaths])
    have h3 := hc (inst.repoRoot ++ [n]) (by simp [candidatePaths])
    have hg : getSourcePath inst fs n = inst.repoRoot ++ [n] := by
      unfold getSourcePath
      dsimp only
      rw [h1, h2]
      simp
    have hent : isInstalledEntry inst fs (n, d) = true := by
      unfold isInstalledEntry
      dsimp only
      rw [hg, h3]
      simp
    unfold dotfilesIsInstalled
    rw [List.all_append, List.all_append, List.all_cons, hent]
    simp
  · intro pre post n d ts now hc hbd hcd
    have hcex : ∀ c ∈ candidatePaths inst n, pathExists fs c = false :=
      fun c hcm => pathExists_of_lookup_none fs c (hc c hcm)
    have hplan0 : planEntry inst fs (n, d) = ([], []) := planEntry_skip inst fs (n, d) hcex
    have hplanEq : planFiles inst (pre ++ (n, d) :: post) fs =
        planFiles inst (pre ++ post) fs := by
      rw [planFiles_append, planFiles_append, planFiles_cons, hplan0]
      simp
    unfold dotfilesInstall
    rw [hplanEq]
    cases hph : installLinkPhase inst ts now (planFiles inst (pre ++ post) fs) fs with
    | error fsE => rfl
    | ok fs2 =>
      show (true, setPermissions inst (pre ++ (n, d) :: post) fs2) =
        (true, setPermissions inst (pre ++ post) fs2)
      have hfs2 : ∀ c ∈ candidatePaths inst n, lookupFS fs2 c = none := by
        intro c hcm
        unfold installLinkPhase at hph
        cases hbk : (if (planFiles inst (pre ++ post) fs).1.isEmpty then Except.ok fs
            else createSelectiveBackups inst ts now (planFiles inst (pre ++ post) fs).1 fs) with
        | error fsE => rw [hbk] at hph; exact Except.noConfusion hph
        | ok fs1 =>
          rw [hbk] at hph
          have hfs1 : lookupFS fs1 c = lookupFS fs c := by
            split at hbk
            · cases hbk; rfl
            · exact createSelectiveBackups_frame inst ts now _ fs fs1 hbk c (hbd c hcm)
          rw [createLinks_frame _ fs1 fs2 hph c ?_, hfs1]
          · exact hc c hcm
          · intro y hy
            exact hcd c hcm (y.1, y.2.2) (planFiles_toL_mem inst (pre ++ post) fs y hy).1
      have hfs3ex : ∀ c ∈ candidatePaths inst n,
          pathExists (setPermissions inst pre fs2) c = false := by
        intro c hcm
        rw [← shapeEq_pathExists (setPermissions_shapeEq inst pre fs2) c]
        exact pathExists_of_lookup_none fs2 c (hfs2 c hcm)
      rw [setPermissions_append, setPermissions_append,
        setPermissions_skip_entry inst (n, d) post (setPermissions inst pre fs2) hfs3ex]

/-- Witness for C7 at a concrete state: dropping the sourceless
`.gitconfig` entry changes neither `install` nor `is_installed`. -/
theorem c7_source_resolution_and_skip_witness :
    dotfilesInstall ⟨["repo"], ["home"]⟩
        ([] ++ (".gitconfig", ["home", ".gitconfig"]) :: [(".zshrc", ["home", ".zshrc"])])
        "20240101_000000" 7 [] =
      dotfilesInstall ⟨["repo"], ["home"]⟩ ([] ++ [(".zshrc", ["home", ".zshrc"])])
        "20240101_000000" 7 [] ∧
    dotfilesIsInstalled ⟨["repo"], ["home"]⟩
        ([] ++ (".gitconfig", ["home", ".gitconfig"]) :: [(".zshrc", ["home", ".zshrc"])]) [] =
      dotfilesIsInstalled ⟨["repo"], ["home"]⟩ ([] ++ [(".zshrc", ["home", ".zshrc"])]) [] :=
  ⟨(c7_source_resolution_and_skip ⟨["repo"], ["home"]⟩ []).2.2.2.2
      [] [(".zshrc", ["home", ".zshrc"])] ".gitconfig" ["home", ".gitconfig"]
      "20240101_000000" 7 (by decide) (by decide) (by decide),
   (c7_source_resolution_and_skip ⟨["repo"], ["home"]⟩ []).2.2.2.1
      [] [(".zshrc", ["home", ".zshrc"])] ".gitconfig" ["home", ".gitconfig"] (by decide)⟩

/-! ## Claim C2: idempotence of `install` on a correct state -/

/-- When the target is classified `CorrectLink` or `SameFile`, it
resolves to the same place as the source. -/
theorem resolveEq_of_correct (fs : FS) (s d : FPath)
    (h : classify fs s d = DeploymentState.CorrectLink ∨
      classify fs s d = DeploymentState.SameFile) :
    pyResolve fs d = pyResolve fs s := by
  cases hld : lookupFS fs d with
  | none =>
    rw [classify_absent fs s d hld] at h
    rcases h with h | h <;> exact absurd h (by simp)
  | some ent =>
    cases ent with
    | link t =>
      rw [classify_link fs s d t hld] at h
      rcases h with h | h
      · by_cases hc : pathExists fs d = true ∧ pyResolve fs d = pyResolve fs s
        · exact hc.2
        · rw [if_neg hc] at h; exact absurd h (by simp)
      · split at h <;> exact absurd h (by simp)
    | file c m t =>
      rw [classify_file fs s d c m t hld] at h
      rcases h with h | h
      · split at h <;> exact absurd h (by simp)
      · by_cases hc : pyResolve fs d = pyResolve fs s
        · exact hc
        · rw [if_neg hc] at h; exact absurd h (by simp)
    | dir =>
      rw [classify_dir fs s d hld] at h
      rcases h with h | h
      · split at h <;> exact absurd h (by simp)
      · by_cases hc : pyResolve fs d = pyResolve fs s
        · exact hc
        · rw [if_neg hc] at h; exact absurd h (by simp)

/-- An entry whose source exists and whose target resolves to the
source contributes nothing to the install plan. -/
theorem planEntry_correct (inst : DInst) (fs : FS) (e : String × FPath)
    (hs : pathExists fs (getSourcePath inst fs e.1) = true)
    (hr : pyResolve fs e.2 = pyResolve fs (getSourcePath inst fs e.1)) :
    planEntry inst fs e = ([], []) := by
  obtain ⟨zb, hzb⟩ := pyResolve_isSome_of_pathExists fs _ hs
  unfold planEntry
  dsimp only
  rw [hs]
  simp only [Bool.true_eq_false, if_false]
  by_cases h2 : isSymlink fs e.2 = true
  · rw [if_pos h2, hzb, hr, hzb]
    simp
  · rw [if_neg h2, hr]
    simp

theorem planFiles_all_skip (inst : DInst) (dmap : List (String × FPath)) (fs : FS)
    (h : ∀ e ∈ dmap, planEntry inst fs e = ([], [])) :
    planFiles inst dmap fs = ([], []) := by
  induction dmap with
  | nil => simp [planFiles]
  | cons e rest ih =>
    rw [planFiles_cons, h e (List.mem_cons_self e rest),
      ih (fun x hx => h x (List.mem_cons_of_mem e hx))]
    rfl

/-- Evaluation of `chmod` once the resolution target is known. -/
theorem chmodFS_eq_of_resolve (fs : FS) (p : FPath) (m : Nat) (z : FPath)
    (hz : pyResolve fs p = some z) :
    chmodFS fs p m =
      (match lookupFS fs z with
      | some (Entry.file c _ t) => insertFS fs z (Entry.file c m t)
      | _ => fs) := by
  unfold chmodFS
  rw [hz]

/-- `chmod` to the mode already in effect changes nothing. -/
theorem chmodFS_id (fs : FS) (p : FPath) (m : Nat)
    (h : effectiveMode fs p = some m) : chmodFS fs p m = fs := by
  unfold effectiveMode at h
  split at h
  · rename_i z hz
    split at h
    · rename_i c m0 t he
      have hm : m0 = m := by simpa using h
      subst hm
      rw [chmodFS_eq_of_resolve fs p m0 z hz, he]
      exact insertFS_self fs z (Entry.file c m0 t) he
    · exact absurd h (by simp)
  · exact absurd h (by simp)

/-- `_set_permissions` is the identity when every existing source
already carries its prescribed mode. -/
theorem setPermissions_id (inst : DInst) (dmap : List (String × FPath)) (fs : FS)
    (h : ∀ e ∈ dmap, pathExists fs (getSourcePath inst fs e.1) = true →
      effectiveMode fs (getSourcePath inst fs e.1) = some (prescribedMode e.1)) :
    setPermissions inst dmap fs = fs := by
  induction dmap with
  | nil => rfl
  | cons e rest ih =>
    have hstep : (if pathExists fs (getSourcePath inst fs e.1) = true
        then chmodFS fs (getSourcePath inst fs e.1) (prescribedMode e.1) else fs) = fs := by
      by_cases hex : pathExists fs (getSourcePath inst fs e.1) = true
      · rw [if_pos hex]
        exact chmodFS_id fs _ _ (h e (List.mem_cons_self e rest) hex)
      · rw [if_neg hex]
    unfold setPermissions
    rw [List.foldl_cons]
    dsimp only
    rw [hstep]
    exact ih (fun x hx => h x (List.mem_cons_of_mem e hx))

/-- Claim C2 (amended): on a filesystem where every entry's resolved
source exists and its target is already a correct symlink or the same
file, `install` schedules no backups and no links, so the only mutation
is `_set_permissions` re-applying source modes; when every source's
effective mode already equals the prescribed one (644 for the shell rc,
600 otherwise), `install` performs zero filesystem mutations. -/
theorem c2_amended_install_idempotent (inst : DInst) (dmap : List (String × FPath))
    (ts : String) (now : Nat) (fs : FS)
    (h1 : ∀ e ∈ dmap, pathExists fs (getSourcePath inst fs e.1) = true)
    (h2 : ∀ e ∈ dmap, classify fs (getSourcePath inst fs e.1) e.2 = DeploymentState.CorrectLink ∨
      classify fs (getSourcePath inst fs e.1) e.2 = DeploymentState.SameFile) :
    dotfilesInstall inst dmap ts now fs = (true, setPermissions inst dmap fs) ∧
    ((∀ e ∈ dmap, effectiveMode fs (getSourcePath inst fs e.1) = some (prescribedMode e.1)) →
      dotfilesInstall inst dmap ts now fs = (true, fs)) := by
  have hplan : planFiles inst dmap fs = ([], []) := by
    refine planFiles_all_skip inst dmap fs (fun e he => ?_)
    exact planEntry_correct inst fs e (h1 e he)
      (resolveEq_of_correct fs _ e.2 (h2 e he))
  have hmain : dotfilesInstall inst dmap ts now fs = (true, setPermissions inst dmap fs) := by
    unfold dotfilesInstall installLinkPhase
    rw [hplan]
    simp [createLinks]
  refine ⟨hmain, fun h3 => ?_⟩
  rw [hmain, setPermissions_id inst dmap fs (fun e he _ => h3 e he)]

/-- Counterexample to claim C2 as stated: on a filesystem where every
entry's source exists and every target is already a correct symlink
(so `is_installed` is true), `install` still mutates the filesystem —
`_set_permissions` runs unconditionally and changes the shell rc
source's mode from 0o600 to 0o644. -/
theorem c2_counterexample :
    dotfilesIsInstalled instC (dotfilesMap instC) (fsAllCorrect 384) = true ∧
    (dotfilesInstall instC (dotfilesMap instC) "20240101_000000" 9 (fsAllCorrect 384)).2 ≠
      fsAllCorrect 384 := by
  constructor
  · decide
  · decide

/-- Witness for the amended C2: when the source modes already match the
prescribed ones, `install` returns success and changes nothing. -/
theorem c2_amended_install_idempotent_witness :
    dotfilesInstall instC (dotfilesMap instC) "20240101_000000" 9 (fsAllCorrect 420) =
      (true, fsAllCorrect 420) :=
  (c2_amended_install_idempotent instC (dotfilesMap instC) "20240101_000000" 9
      (fsAllCorrect 420) (by decide) (by decide)).2 (by decide)

/-! ## Claim C4: `uninstall` -/

theorem pyMax_foldl_spec (f : FPath → Nat) (xs : List FPath) (x : FPath) :
    (xs.foldl (fun best y => if f best < f y then y else best) x) ∈ x :: xs ∧
    f x ≤ f (xs.foldl (fun best y => if f best < f y then y else best) x) ∧
    ∀ y ∈ xs, f y ≤ f (xs.foldl (fun best y => if f best < f y then y else best) x) := by
  induction xs generalizing x with
  | nil => exact ⟨List.mem_cons_self x [], Nat.le_refl _, by simp⟩
  | cons y ys ih =>
    rw [List.foldl_cons]
    obtain ⟨hmem, hle, hall⟩ := ih (if f x < f y then y else x)
    have hx1 : f x ≤ f (if f x < f y then y else x) := by
      by_cases hxy : f x < f y
      · rw [if_pos hxy]; exact Nat.le_of_lt hxy
      · rw [if_neg hxy]
    have hy1 : f y ≤ f (if f x < f y then y else x) := by
      by_cases hxy : f x < f y
      · rw [if_pos hxy]
      · rw [if_neg hxy]; exact Nat.le_of_not_lt hxy
    refine ⟨?_, Nat.le_trans hx1 hle, ?_⟩
    · rcases List.mem_cons.mp hmem with h1 | h1
      · rw [h1]
        by_cases hxy : f x < f y
        · rw [if_pos hxy]; exact List.mem_cons_of_mem x (List.mem_cons_self y ys)
        · rw [if_neg hxy]; exact List.mem_cons_self x (y :: ys)
      · exact List.mem_cons_of_mem x (List.mem_cons_of_mem y h1)
    · intro z hz
      rcases List.mem_cons.mp hz with h1 | h1
      · rw [h1]; exact Nat.le_trans hy1 hle
      · exact hall z h1

/-- Python `max(xs, key=f)` returns an element of the list attaining
the maximum of the key. -/
theorem pyMax_spec (f : FPath → Nat) (l : List FPath) (b : FPath)
    (h : pyMax f l = some b) : b ∈ l ∧ ∀ y ∈ l, f y ≤ f b := by
  cases l with
  | nil => exact Option.noConfusion h
  | cons x xs =>
    have hb : xs.foldl (fun best y => if f best < f y then y else best) x = b := by
      simpa [pyMax] using h
    obtain ⟨hmem, hle, hall⟩ := pyMax_foldl_spec f xs x
    rw [hb] at hmem hle hall
    refine ⟨hmem, ?_⟩
    intro y hy
    rcases List.mem_cons.mp hy with h1 | h1
    · rw [h1]; exact hle
    · exact hall y h1

/-- One unfolding step of the `uninstall` loop. -/
theorem uninstallGo_cons (inst : DInst) (fails : FPath → Bool) (n : String) (d : FPath)
    (rest : List (String × FPath)) (fs : FS) :
    uninstallGo inst fails ((n, d) :: rest) fs =
      (if pathExists fs d then
        if fails d then (false, fs)
        else
          match pyMax (statMtime (unlinkFS fs d))
              (globBackups inst (unlinkFS fs d) (pathName d)) with
          | some latest =>
            match copy2 (unlinkFS fs d) latest d with
            | Except.ok fs2 => uninstallGo inst fails rest fs2
            | Except.error fsE => (false, fsE)
          | none => uninstallGo inst fails rest (unlinkFS fs d)
      else uninstallGo inst fails rest fs) := rfl

/-- The loop over an appended list runs the first part and continues
with the second only when the first succeeded. -/
theorem uninstallGo_append (inst : DInst) (fails : FPath → Bool)
    (l1 l2 : List (String × FPath)) (fs : FS) :
    uninstallGo inst fails (l1 ++ l2) fs =
      (if (uninstallGo inst fails l1 fs).1 then
        uninstallGo inst fails l2 (uninstallGo inst fails l1 fs).2
      else uninstallGo inst fails l1 fs) := by
  induction l1 generalizing fs with
  | nil => simp [uninstallGo]
  | cons e rest ih =>
    obtain ⟨n, d⟩ := e
    rw [List.cons_append, uninstallGo_cons, uninstallGo_cons]
    by_cases hex : pathExists fs d = true
    · rw [if_pos hex, if_pos hex]
      by_cases hf : fails d = true
      · rw [if_pos hf, if_pos hf]
        simp
      · rw [if_neg hf, if_neg hf]
        cases hmx : pyMax (statMtime (unlinkFS fs d))
            (globBackups inst (unlinkFS fs d) (pathName d)) with
        | none => dsimp only; exact ih (unlinkFS fs d)
        | some latest =>
          dsimp only
          cases hcp : copy2 (unlinkFS fs d) latest d with
          | ok fs2 => dsimp only; exact ih fs2
          | error fsE => dsimp only; simp
    · rw [if_neg hex, if_neg hex]
      exact ih fs

/-- Claim C4 (amended): `uninstall` walks the entries in order; an
entry whose target does not exist is skipped; an existing target is
deleted and the most-recently-modified matching backup, if any, is
restored over it; but the first failure aborts the whole loop — the
work done on earlier entries is kept, `uninstall` returns failure, and
the remaining entries are not attempted (the loop body is wrapped in a
single `try`, so entries are not attempted independently). -/
theorem c4_amended_uninstall (inst : DInst) (fails : FPath → Bool) :
    (∀ (n : String) (d : FPath) (rest : List (String × FPath)) (fs : FS),
      pathExists fs d = false →
      uninstallGo inst fails ((n, d) :: rest) fs = uninstallGo inst fails rest fs) ∧
    (∀ (pre post : List (String × FPath)) (n : String) (d : FPath) (fs fs1 : FS),
      uninstallGo inst fails pre fs = (true, fs1) →
      pathExists fs1 d = true → fails d = true →
      dotfilesUninstall inst (pre ++ (n, d) :: post) fails fs = (false, fs1)) ∧
    (∀ (n : String) (d : FPath) (fs : FS),
      pathExists fs d = true → fails d = false →
      globBackups inst (unlinkFS fs d) (pathName d) = [] →
      dotfilesUninstall inst [(n, d)] fails fs = (true, unlinkFS fs d) ∧
        lookupFS (unlinkFS fs d) d = none) ∧
    (∀ (n : String) (d b : FPath) (fs : FS) (c : String) (m t : Nat),
      pathExists fs d = true → fails d = false →
      pyMax (statMtime (unlinkFS fs d)) (globBackups inst (unlinkFS fs d) (pathName d)) =
        some b →
      lookupFS (unlinkFS fs d) b = some (Entry.file c m t) →
      dotfilesUninstall inst [(n, d)] fails fs =
        (true, insertFS (unlinkFS fs d) d (Entry.file c m t)) ∧
      b ∈ globBackups inst (unlinkFS fs d) (pathName d) ∧
      ∀ y ∈ globBackups inst (unlinkFS fs d) (pathName d),
        statMtime (unlinkFS fs d) y ≤ statMtime (unlinkFS fs d) b) := by
  refine ⟨?_, ?_, ?_, ?_⟩
  · intro n d rest fs hex
    rw [uninstallGo_cons, if_neg (by rw [hex]; exact Bool.false_ne_true)]
  · intro pre post n d fs fs1 hpre hex hf
    unfold dotfilesUninstall
    rw [uninstallGo_append, hpre]
    simp only [if_true]
    rw [uninstallGo_cons, if_pos hex, if_pos hf]
  · intro n d fs hex hf hglob
    refine ⟨?_, lookupFS_removeFS_self fs d⟩
    unfold dotfilesUninstall
    rw [uninstallGo_cons, if_pos hex, if_neg (by rw [hf]; exact Bool.false_ne_true), hglob]
    rfl
  · intro n d b fs c m t hex hf hmx hb
    have hcp : copy2 (unlinkFS fs d) b d =
        Except.ok (insertFS (unlinkFS fs d) d (Entry.file c m t)) := by
      unfold copy2
      rw [pyResolve_of_file _ b c m t hb]
      dsimp only
      rw [hb]
    obtain ⟨hmem, hall⟩ := pyMax_spec _ _ b hmx
    refine ⟨?_, hmem, hall⟩
    unfold dotfilesUninstall
    rw [uninstallGo_cons, if_pos hex, if_neg (by rw [hf]; exact Bool.false_ne_true), hmx]
    dsimp only
    rw [hcp]
    rfl

/-- Counterexample to claim C4 as stated: with two entries whose
targets both exist and no backups, a failure while deleting the first
target makes `uninstall` return failure immediately — the second entry
is never attempted (its target survives), contradicting the claimed
independent per-entry processing. -/
theorem c4_counterexample :
    dotfilesUninstall instC [("a", ["h", "fa"]), ("b", ["h", "fb"])] failsFa fsTwoTargets =
      (false, fsTwoTargets) ∧
    lookupFS (dotfilesUninstall instC [("a", ["h", "fa"]), ("b", ["h", "fb"])]
        failsFa fsTwoTargets).2 ["h", "fb"] = some (Entry.file "B" 420 4) := by
  constructor
  · decide
  · decide

/-- Witness for the amended C4: on one entry with two matching backups,
`uninstall` deletes the target and restores the more recently modified
backup. -/
theorem c4_amended_uninstall_witness :
    dotfilesUninstall instC [("a", ["h", "fa"])] noFails fsWithBackups =
      (true, insertFS (unlinkFS fsWithBackups ["h", "fa"]) ["h", "fa"]
        (Entry.file "old2" 420 9)) :=
  ((c4_amended_uninstall instC noFails).2.2.2 "a" ["h", "fa"]
      ["h", ".config-backups", "fa.backup_20240101_000002"] fsWithBackups
      "old2" 420 9 (by decide) rfl (by decide) (by decide)).1

/-! ## Claim C9: sub-component failures during install -/

theorem runShellList_ok (r : Runner) (cs : List String)
    (h : ∀ c ∈ cs, ∃ out err, r (Command.shellCmd c none) = CmdOutcome.exits 0 out err) :
    runShellList r cs = Except.ok () := by
  induction cs with
  | nil => rfl
  | cons c rest ih =>
    obtain ⟨out, err, hc⟩ := h c (List.mem_cons_self c rest)
    rw [runShellList]
    rw [show runCommand r (Command.shellCmd c none) true =
        Except.ok (CmdOutcome.exits 0 out err) by simp [runCommand, hc]]
    exact ih (fun c2 hc2 => h c2 (List.mem_cons_of_mem c hc2))

/-- Counterexample to claim C9 as stated: with Oh My Zsh itself already
installed, `zsh` present and the first plugin absent, a failing
`git clone` for that plugin makes `OhMyZshInstaller.install` return
failure — the plugin failure is not skipped, because `_install_plugins`
has no per-plugin exception handler. -/
theorem c9_counterexample :
    (omzInstall cloneFailRunner ["h"] omzFsInstalled).1 = false := by
  decide

/-- Claim C9 (amended): for the coding-assistant installer a failing
MCP plugin registration is swallowed inside the per-plugin `try` and
`install` still returns success (no hypothesis constrains the
registration commands' outcomes); but for the shell-framework installer
a plugin clone failure propagates out of `_install_plugins` to the
outer handler and `install` returns failure. -/
theorem c9_amended_subcomponent_failures (r : Runner) (home : FPath) (fs : FS) :
    (nvmInstalled home fs = true →
      (∀ c ∈ nodeInstallCmds home, ∃ out err,
        r (Command.shellCmd c none) = CmdOutcome.exits 0 out err) →
      (∃ out err, r (Command.argv ["which", "claude"] none) = CmdOutcome.exits 0 out err) →
      claudeInstall r home fs = true) ∧
    (∀ (fs1 : FS) (code : Nat) (out err : String),
      (∃ wout werr, r (Command.argv ["which", "zsh"] none) = CmdOutcome.exits 0 wout werr) →
      omzIsInstalled home fs = true →
      mkdirAll fs (omzPluginsDir home) = Except.ok fs1 →
      pathExists fs1 (omzPluginsDir home ++ ["zsh-syntax-highlighting"]) = false →
      r (Command.argv ["git", "clone",
          "https://github.com/zsh-users/zsh-syntax-highlighting.git",
          renderPath (omzPluginsDir home ++ ["zsh-syntax-highlighting"])] none) =
        CmdOutcome.exits code out err →
      code ≠ 0 →
      (omzInstall r home fs).1 = false) := by
  constructor
  · intro h1 h2 h3
    obtain ⟨wout, werr, hw⟩ := h3
    have hce : commandExists r "claude" = Except.ok true := by
      simp [commandExists, runCommand, hw]
    unfold claudeInstall claudeInstallBody
    rw [if_pos h1, runShellList_ok r _ h2, hce]
    rfl
  · intro fs1 code out err hz hi hmk hplug hclone hcode
    obtain ⟨wout, werr, hw⟩ := hz
    have hcz : commandExists r "zsh" = Except.ok true := by
      simp [commandExists, runCommand, hw]
    have hrun : runCommand r (Command.argv ["git", "clone",
        "https://github.com/zsh-users/zsh-syntax-highlighting.git",
        renderPath (omzPluginsDir home ++ ["zsh-syntax-highlighting"])] none) true =
        Except.error PyError.calledProcessError := by
      simp [runCommand, hclone, hcode]
    have hplugres : omzInstallPlugins r home fs = Except.error (PyError.calledProcessError, fs1) := by
      unfold omzInstallPlugins
      rw [hmk]
      show omzInstallPlugins.go r home fs1 omzPlugins = _
      unfold omzInstallPlugins.go omzPlugins
      dsimp only
      rw [if_neg (by rw [hplug]; exact Bool.false_ne_true), hrun]
    unfold omzInstall omzInstallBody
    rw [hcz]
    simp only [if_true]
    rw [if_pos hi]
    rw [hplugres]
    rfl

/-- Witness for the amended C9: the coding-assistant install succeeds
on an all-zero-exit runner with NVM present, and the shell-framework
install fails on the clone-failure runner. -/
theorem c9_amended_subcomponent_failures_witness :
    claudeInstall allOkRunner ["h"] claudeFsNvm = true ∧
    (omzInstall cloneFailRunner ["h"] omzFsInstalled).1 = false :=
  ⟨(c9_amended_subcomponent_failures allOkRunner ["h"] claudeFsNvm).1 (by decide)
      (fun c _ => ⟨"", "", rfl⟩) ⟨"", "", rfl⟩,
   (c9_amended_subcomponent_failures cloneFailRunner ["h"] omzFsInstalled).2
      (omzFsInstalled ++ [([], Entry.dir), (["h"], Entry.dir),
        (["h", ".oh-my-zsh", "custom"], Entry.dir),
        (["h", ".oh-my-zsh", "custom", "plugins"], Entry.dir)])
      1 "" "clone failed" ⟨"", "", rfl⟩ (by decide) rfl (by decide) rfl (by decide)⟩

/-! ## Postconditions of `install` (claims C3, C6, C8) -/

theorem strAppendRightCancel (a b s : String) (h : a ++ s = b ++ s) : a = b := by
  have h2 : (a ++ s).data = (b ++ s).data := congrArg String.data h
  rw [String.data_append, String.data_append] at h2
  exact String.ext (List.append_cancel_right h2)

theorem backupName_inj (d1 d2 : FPath) (ts : String)
    (h : backupName d1 ts = backupName d2 ts) : pathName d1 = pathName d2 := by
  unfold backupName at h
  exact strAppendRightCancel _ _ _ (strAppendRightCancel _ _ _ h)

theorem isExistingKind_of_pathExists (fs : FS) (p : FPath) (z : FPath)
    (h : pathExists fs p = true) (hz : pyResolve fs p = some z) :
    isExistingKind (lookupFS fs z) = true := by
  unfold pathExists at h
  rw [hz] at h
  exact h

theorem isExistingKind_of_not_pathExists (fs : FS) (p : FPath) (z : FPath)
    (h : pathExists fs p = false) (hz : pyResolve fs p = some z) :
    isExistingKind (lookupFS fs z) = false := by
  unfold pathExists at h
  rw [hz] at h
  exact h

/-- The plan contributions of a member entry end up in the plan. -/
theorem planFiles_mem_toB (inst : DInst) (dmap : List (String × FPath)) (fs : FS)
    (e : String × FPath) (he : e ∈ dmap) (x : String × FPath)
    (hx : x ∈ (planEntry inst fs e).1) : x ∈ (planFiles inst dmap fs).1 := by
  induction dmap with
  | nil => simp at he
  | cons e0 rest ih =>
    rw [planFiles_cons]
    rcases List.mem_cons.mp he with h1 | h1
    · subst h1
      exact List.mem_append_left _ hx
    · exact List.mem_append_right _ (ih h1)

theorem planFiles_mem_toL (inst : DInst) (dmap : List (String × FPath)) (fs : FS)
    (e : String × FPath) (he : e ∈ dmap) (y : String × FPath × FPath)
    (hy : y ∈ (planEntry inst fs e).2) : y ∈ (planFiles inst dmap fs).2 := by
  induction dmap with
  | nil => simp at he
  | cons e0 rest ih =>
    rw [planFiles_cons]
    rcases List.mem_cons.mp he with h1 | h1
    · subst h1
      exact List.mem_append_left _ hy
    · exact List.mem_append_right _ (ih h1)

/-- The link destinations in the plan are a sublist of the map's
destinations (so distinct map destinations give distinct planned
links). -/
theorem planFiles_toL_dests_sublist (inst : DInst) (dmap : List (String × FPath)) (fs : FS) :
    List.Sublist ((planFiles inst dmap fs).2.map (fun y => y.2.2)) (dmap.map (fun e => e.2)) := by
  induction dmap with
  | nil => simp [planFiles]
  | cons e rest ih =>
    rw [planFiles_cons, List.map_cons]
    rcases (planEntry_cases inst fs e).2 with hc | hc
    · rw [hc]
      simpa using ih.cons e.2
    · rw [hc]
      simpa using ih.cons₂ e.2

/-- `mkdir` (with `exist_ok`) preserves every present entry when it
succeeds. -/
theorem mkdirList_preserve_some (ps : List FPath) (fs fs' : FS)
    (h : mkdirList fs ps = Except.ok fs') (q : FPath) (e : Entry)
    (hq : lookupFS fs q = some e) : lookupFS fs' q = some e := by
  induction ps generalizing fs with
  | nil => cases h; exact hq
  | cons p rest ih =>
    rw [mkdirList] at h
    cases hm : mkdirSelf fs p with
    | ok fs1 =>
      rw [hm] at h
      refine ih fs1 h ?_
      unfold mkdirSelf at hm
      by_cases hpq : p = q
      · subst hpq
        rw [hq] at hm
        cases e with
        | dir => cases hm; exact hq
        | file c m t => exact Except.noConfusion hm
        | link t => exact Except.noConfusion hm
      · split at hm
        · cases hm
          rw [lookupFS_insertFS_other _ _ _ q (fun hc => hpq hc.symm)]
          exact hq
        · cases hm; exact hq
        · exact Except.noConfusion hm
    | error fsE => rw [hm] at h; exact Except.noConfusion h

/-- When every listed path is missing or a directory, `mkdir` succeeds
and afterwards every path is either unchanged or a directory. -/
theorem mkdirList_ok (ps : List FPath) (fs : FS)
    (h : ∀ p ∈ ps, lookupFS fs p = none ∨ lookupFS fs p = some Entry.dir) :
    ∃ fs', mkdirList fs ps = Except.ok fs' ∧
      ∀ q, lookupFS fs' q = lookupFS fs q ∨ lookupFS fs' q = some Entry.dir := by
  induction ps generalizing fs with
  | nil => exact ⟨fs, rfl, fun q => Or.inl rfl⟩
  | cons p rest ih =>
    have hstep : ∃ fs1, mkdirSelf fs p = Except.ok fs1 ∧
        (∀ q, lookupFS fs1 q = lookupFS fs q ∨ lookupFS fs1 q = some Entry.dir) := by
      rcases h p (List.mem_cons_self p rest) with h1 | h1
      · refine ⟨insertFS fs p Entry.dir, by rw [mkdirSelf, h1], fun q => ?_⟩
        rw [lookupFS_insertFS]
        by_cases hq : q = p
        · exact Or.inr (if_pos hq ▸ rfl)
        · exact Or.inl (if_neg hq ▸ rfl)
      · exact ⟨fs, by rw [mkdirSelf, h1], fun q => Or.inl rfl⟩
    obtain ⟨fs1, hm, hinv⟩ := hstep
    have hrest : ∀ p2 ∈ rest, lookupFS fs1 p2 = none ∨ lookupFS fs1 p2 = some Entry.dir := by
      intro p2 hp2
      rcases hinv p2 with h2 | h2
      · rw [h2]; exact h p2 (List.mem_cons_of_mem p hp2)
      · exact Or.inr h2
    obtain ⟨fs', hgo, hinv2⟩ := ih fs1 hrest
    refine ⟨fs', by rw [mkdirList, hm]; exact hgo, fun q => ?_⟩
    rcases hinv2 q with h2 | h2
    · rw [h2]; exact hinv q
    · exact Or.inr h2

/-- `backupOne` writes at most at its own backup path. -/
theorem backupOne_writes (inst : DInst) (ts : String) (now : Nat) (fs fs' : FS)
    (d : FPath) (h : backupOne inst ts now fs d = Except.ok fs')
    (q : FPath) (hq : q ≠ backupDir inst ++ [backupName d ts]) :
    lookupFS fs' q = lookupFS fs q := by
  unfold backupOne at h
  split at h
  · split at h
    · split at h
      · cases h
        exact lookupFS_insertFS_other fs _ _ q hq
      · cases h
        exact lookupFS_insertFS_other fs _ _ q hq
    · unfold copy2 at h
      split at h
      · split at h
        · cases h
          exact lookupFS_insertFS_other fs _ _ q hq
        · exact Except.noConfusion h
      · exact Except.noConfusion h
  · cases h; rfl

/-- Evaluation of `backupOne` on a regular-file target. -/
theorem backupOne_file_eq (inst : DInst) (ts : String) (now : Nat) (fs : FS)
    (d : FPath) (c : String) (m t : Nat)
    (hld : lookupFS fs d = some (Entry.file c m t)) :
    backupOne inst ts now fs d =
      Except.ok (insertFS fs (backupDir inst ++ [backupName d ts]) (Entry.file c m t)) := by
  have h1 : pathExists fs d = true := pathExists_of_file fs d c m t hld
  have h2 : isSymlink fs d = false := by simp [isSymlink, hld]
  unfold backupOne
  rw [h1, h2, Bool.true_or, if_pos rfl, if_neg Bool.false_ne_true]
  unfold copy2
  rw [pyResolve_of_file fs d c m t hld]
  dsimp only
  rw [hld]

/-- `backupOne` succeeds whenever the target is not a directory. -/
theorem backupOne_ok (inst : DInst) (ts : String) (now : Nat) (fs : FS) (d : FPath)
    (hd : lookupFS fs d ≠ some Entry.dir) :
    ∃ fs1, backupOne inst ts now fs d = Except.ok fs1 := by
  cases hld : lookupFS fs d with
  | none =>
    have h1 : pathExists fs d = false := pathExists_of_lookup_none fs d hld
    have h2 : isSymlink fs d = false := by simp [isSymlink, hld]
    refine ⟨fs, ?_⟩
    unfold backupOne
    rw [h1, h2, Bool.or_false, if_neg Bool.false_ne_true]
  | some ent =>
    cases ent with
    | link t =>
      have h2 : isSymlink fs d = true := by simp [isSymlink, hld]
      unfold backupOne
      rw [h2, Bool.or_true, if_pos rfl, if_pos rfl]
      cases hr : pyResolve fs d with
      | some tgt => exact ⟨_, rfl⟩
      | none => exact ⟨_, rfl⟩
    | file c m t => exact ⟨_, backupOne_file_eq inst ts now fs d c m t hld⟩
    | dir => exact absurd hld hd

/-- The backup loop succeeds when no scheduled target is a directory
(targets live outside the backup directory, so earlier backups do not
disturb later targets). -/
theorem backupsGo_ok (inst : DInst) (ts : String) (now : Nat)
    (toB : List (String × FPath)) (fs : FS)
    (h : ∀ x ∈ toB, ¬ backupDir inst <+: x.2 ∧ lookupFS fs x.2 ≠ some Entry.dir) :
    ∃ fsB, backupsGo inst ts now toB fs = Except.ok fsB := by
  induction toB generalizing fs with
  | nil => exact ⟨fs, rfl⟩
  | cons x rest ih =>
    obtain ⟨fs1, h1⟩ := backupOne_ok inst ts now fs x.2
      (h x (List.mem_cons_self x rest)).2
    have hrest : ∀ y ∈ rest, ¬ backupDir inst <+: y.2 ∧ lookupFS fs1 y.2 ≠ some Entry.dir := by
      intro y hy
      obtain ⟨hyb, hyd⟩ := h y (List.mem_cons_of_mem x hy)
      refine ⟨hyb, ?_⟩
      rw [backupOne_writes inst ts now fs fs1 x.2 h1 y.2 ?_]
      · exact hyd
      · intro hc
        exact hyb (hc ▸ List.prefix_append _ _)
    obtain ⟨fsB, hgo⟩ := ih fs1 hrest
    refine ⟨fsB, ?_⟩
    rw [backupsGo, h1]
    exact hgo

/-- Once a target's backup has been written, the rest of the backup
loop never overwrites it with different content: another scheduled file
can collide with this backup name only by being the same target, whose
re-backup copies the same (undisturbed) content. -/
theorem backupsGo_preserve (inst : DInst) (ts : String) (now : Nat)
    (rest : List (String × FPath)) (fs fsB : FS)
    (hok : backupsGo inst ts now rest fs = Except.ok fsB)
    (d : FPath) (c : String) (m t : Nat)
    (hbp : lookupFS fs (backupDir inst ++ [backupName d ts]) = some (Entry.file c m t))
    (hd : lookupFS fs d = some (Entry.file c m t))
    (hbdd : ¬ backupDir inst <+: d)
    (hnames : ∀ x ∈ rest, pathName x.2 = pathName d → x.2 = d)
    (hbds : ∀ x ∈ rest, ¬ backupDir inst <+: x.2) :
    lookupFS fsB (backupDir inst ++ [backupName d ts]) = some (Entry.file c m t) := by
  induction rest generalizing fs with
  | nil => cases hok; exact hbp
  | cons x rest2 ih =>
    rw [backupsGo] at hok
    cases h1 : backupOne inst ts now fs x.2 with
    | error fsE => rw [h1] at hok; exact Except.noConfusion hok
    | ok fs1 =>
      rw [h1] at hok
      have hdbp : d ≠ backupDir inst ++ [backupName d ts] := fun hc =>
        hbdd (hc ▸ List.prefix_append _ _)
      have hnames2 : ∀ y ∈ rest2, pathName y.2 = pathName d → y.2 = d :=
        fun y hy => hnames y (List.mem_cons_of_mem x hy)
      have hbds2 : ∀ y ∈ rest2, ¬ backupDir inst <+: y.2 :=
        fun y hy => hbds y (List.mem_cons_of_mem x hy)
      by_cases hn : pathName x.2 = pathName d
      · have hxd : x.2 = d := hnames x (List.mem_cons_self x rest2) hn
        have heq : (Except.ok (insertFS fs (backupDir inst ++ [backupName d ts])
            (Entry.file c m t)) : Except FS FS) = Except.ok fs1 := by
          rw [← h1, hxd, backupOne_file_eq inst ts now fs d c m t hd]
        have hfs1 : fs1 = insertFS fs (backupDir inst ++ [backupName d ts])
            (Entry.file c m t) := (Except.ok.inj heq).symm
        subst hfs1
        exact ih _ hok (lookupFS_insertFS_self fs _ _)
          (by rw [lookupFS_insertFS_other fs _ _ d hdbp]; exact hd) hnames2 hbds2
      · have hbpx : backupDir inst ++ [backupName d ts] ≠
            backupDir inst ++ [backupName x.2 ts] := by
          intro hc
          have h2 : backupName d ts = backupName x.2 ts := by
            simpa using List.append_cancel_left hc
          exact hn (backupName_inj d x.2 ts h2).symm
        refine ih fs1 hok ?_ ?_ hnames2 hbds2
        · rw [backupOne_writes inst ts now fs fs1 x.2 h1 _ hbpx]
          exact hbp
        · rw [backupOne_writes inst ts now fs fs1 x.2 h1 d
            (fun hc => hbdd (hc ▸ List.prefix_append _ _))]
          exact hd

/-- The backup of a foreign-file target scheduled in the loop ends up
in the backup directory with the target's exact content, mode and
mtime. -/
theorem backupsGo_content (inst : DInst) (ts : String) (now : Nat)
    (toB : List (String × FPath)) (fs fsB : FS)
    (hok : backupsGo inst ts now toB fs = Except.ok fsB)
    (d : FPath) (c : String) (m t : Nat)
    (hd : lookupFS fs d = some (Entry.file c m t))
    (hbdd : ¬ backupDir inst <+: d)
    (hmem : ∃ x ∈ toB, x.2 = d)
    (hnames : ∀ x ∈ toB, pathName x.2 = pathName d → x.2 = d)
    (hbds : ∀ x ∈ toB, ¬ backupDir inst <+: x.2) :
    lookupFS fsB (backupDir inst ++ [backupName d ts]) = some (Entry.file c m t) := by
  induction toB generalizing fs with
  | nil => simp at hmem
  | cons x rest ih =>
    rw [backupsGo] at hok
    cases h1 : backupOne inst ts now fs x.2 with
    | error fsE => rw [h1] at hok; exact Except.noConfusion hok
    | ok fs1 =>
      rw [h1] at hok
      have hdbp : d ≠ backupDir inst ++ [backupName d ts] := fun hc =>
        hbdd (hc ▸ List.prefix_append _ _)
      have hnames2 : ∀ y ∈ rest, pathName y.2 = pathName d → y.2 = d :=
        fun y hy => hnames y (List.mem_cons_of_mem x hy)
      have hbds2 : ∀ y ∈ rest, ¬ backupDir inst <+: y.2 :=
        fun y hy => hbds y (List.mem_cons_of_mem x hy)
      by_cases hxd : x.2 = d
      · have heq : (Except.ok (insertFS fs (backupDir inst ++ [backupName d ts])
            (Entry.file c m t)) : Except FS FS) = Except.ok fs1 := by
          rw [← h1, hxd, backupOne_file_eq inst ts now fs d c m t hd]
        have hfs1 : fs1 = insertFS fs (backupDir inst ++ [backupName d ts])
            (Entry.file c m t) := (Except.ok.inj heq).symm
        subst hfs1
        exact backupsGo_preserve inst ts now rest _ fsB hok d c m t
          (lookupFS_insertFS_self fs _ _)
          (by rw [lookupFS_insertFS_other fs _ _ d hdbp]; exact hd)
          hbdd hnames2 hbds2
      · obtain ⟨x2, hx2mem, hx2⟩ := hmem
        have hx2rest : x2 ∈ rest := by
          rcases List.mem_cons.mp hx2mem with h2 | h2
          · exact absurd (h2 ▸ hx2) hxd
          · exact h2
        refine ih fs1 hok ?_ ⟨x2, hx2rest, hx2⟩ hnames2 hbds2
        rw [backupOne_writes inst ts now fs fs1 x.2 h1 d
          (fun hc => hbdd (hc ▸ List.prefix_append _ _))]
        exact hd

/-- `createLinks` preserves an existing link at a path that is not
among the remaining destinations (directory creation only ever touches
missing paths, and the other writes are at destinations). -/
theorem createLinks_preserve_link (toL : List (String × FPath × FPath)) (fs fs' : FS)
    (h : createLinks toL fs = Except.ok fs') (d s : FPath)
    (hld : lookupFS fs d = some (Entry.link s))
    (hnd : ∀ y ∈ toL, y.2.2 ≠ d) :
    lookupFS fs' d = some (Entry.link s) := by
  induction toL generalizing fs with
  | nil => cases h; exact hld
  | cons y0 rest ih =>
    obtain ⟨n0, s0, d0⟩ := y0
    have hd0 : d0 ≠ d := hnd (n0, s0, d0) (List.mem_cons_self _ _)
    rw [createLinks] at h
    cases hm : mkdirAncestors fs d0 with
    | error fsE => rw [hm] at h; exact Except.noConfusion h
    | ok fs1 =>
      rw [hm] at h
      dsimp only at h
      refine ih _ h ?_ (fun y hy => hnd y (List.mem_cons_of_mem _ hy))
      unfold symlinkTo
      rw [lookupFS_insertFS_other _ _ _ d (fun hc => hd0 hc.symm)]
      have hld1 : lookupFS fs1 d = some (Entry.link s) :=
        mkdirList_preserve_some _ fs fs1 hm d _ hld
      split
      · unfold unlinkFS
        rw [lookupFS_removeFS_other fs1 d0 d (fun hc => hd0 hc.symm)]
        exact hld1
      · exact hld1

/-- After `createLinks`, every scheduled destination is a symlink to
its scheduled source (destinations are distinct). -/
theorem createLinks_post (toL : List (String × FPath × FPath)) (fs fs' : FS)
    (h : createLinks toL fs = Except.ok fs')
    (hnodup : (toL.map (fun y => y.2.2)).Nodup)
    (y : String × FPath × FPath) (hy : y ∈ toL) :
    lookupFS fs' y.2.2 = some (Entry.link y.2.1) := by
  induction toL generalizing fs with
  | nil => simp at hy
  | cons y0 rest ih =>
    obtain ⟨n0, s0, d0⟩ := y0
    rw [createLinks] at h
    cases hm : mkdirAncestors fs d0 with
    | error fsE => rw [hm] at h; exact Except.noConfusion h
    | ok fs1 =>
      rw [hm] at h
      dsimp only at h
      rw [List.map_cons, List.nodup_cons] at hnodup
      rcases List.mem_cons.mp hy with h1 | h1
      · subst h1
        refine createLinks_preserve_link rest _ fs' h d0 s0
          (lookupFS_insertFS_self _ _ _) ?_
        intro y2 hy2 hc
        have hmm : y2.2.2 ∈ List.map (fun y => y.2.2) rest :=
          List.mem_map_of_mem (fun y => y.2.2) hy2
        rw [hc] at hmm
        exact hnodup.1 hmm
      · exact ih _ h hnodup.2 h1

/-- `createLinks` succeeds when every destination's ancestors are
missing or directories and no destination is a strict prefix of
another. -/
theorem createLinks_ok (toL : List (String × FPath × FPath)) (fs : FS)
    (hpre : ∀ y ∈ toL, ∀ p ∈ properPrefixes y.2.2,
      lookupFS fs p = none ∨ lookupFS fs p = some Entry.dir)
    (hnost : ∀ y ∈ toL, ∀ y2 ∈ toL, y.2.2 ≠ y2.2.2 → ¬ y.2.2 <+: y2.2.2) :
    ∃ fs', createLinks toL fs = Except.ok fs' := by
  induction toL generalizing fs with
  | nil => exact ⟨fs, rfl⟩
  | cons y0 rest ih =>
    obtain ⟨n0, s0, d0⟩ := y0
    obtain ⟨fs1, hm, hinv⟩ := mkdirList_ok (properPrefixes d0) fs
      (hpre (n0, s0, d0) (List.mem_cons_self _ _))
    have hpre2 : ∀ y ∈ rest, ∀ p ∈ properPrefixes y.2.2,
        lookupFS (symlinkTo
          (if pathExists fs1 d0 || isSymlink fs1 d0 then unlinkFS fs1 d0 else fs1)
          d0 s0) p = none ∨
        lookupFS (symlinkTo
          (if pathExists fs1 d0 || isSymlink fs1 d0 then unlinkFS fs1 d0 else fs1)
          d0 s0) p = some Entry.dir := by
      intro y hy p hp
      have hporig := hpre y (List.mem_cons_of_mem _ hy) p hp
      have hpd0 : p ≠ d0 := by
        intro hc
        obtain ⟨hpref, hlen⟩ := properPrefixes_mem y.2.2 p hp
        subst hc
        have hne : p ≠ y.2.2 := by
          intro hcc
          rw [hcc] at hlen
          exact Nat.lt_irrefl _ hlen
        exact hnost (n0, s0, p) (List.mem_cons_self _ _) y
          (List.mem_cons_of_mem _ hy) hne hpref
      unfold symlinkTo
      rw [lookupFS_insertFS_other _ _ _ p hpd0]
      have hfs1 : lookupFS fs1 p = none ∨ lookupFS fs1 p = some Entry.dir := by
        rcases hinv p with h2 | h2
        · rw [h2]; exact hporig
        · exact Or.inr h2
      split
      · unfold unlinkFS
        rw [lookupFS_removeFS_other fs1 d0 p hpd0]
        exact hfs1
      · exact hfs1
    have hnost2 : ∀ y ∈ rest, ∀ y2 ∈ rest, y.2.2 ≠ y2.2.2 → ¬ y.2.2 <+: y2.2.2 :=
      fun y hy y2 hy2 => hnost y (List.mem_cons_of_mem _ hy) y2 (List.mem_cons_of_mem _ hy2)
    obtain ⟨fs', hrest⟩ := ih _ hpre2 hnost2
    refine ⟨fs', ?_⟩
    rw [createLinks]
    unfold mkdirAncestors
    rw [hm]
    exact hrest

/-- The whole mutating middle of `install` succeeds on a well-formed
state, touches nothing outside the backup directory and the planned
destinations, makes every planned destination a symlink to its planned
source, and stores a faithful backup of every planned foreign-file
target. -/
theorem installLinkPhase_main (inst : DInst) (ts : String) (now : Nat)
    (dmap : List (String × FPath)) (fs : FS) (hwf : InstallWF inst dmap fs) :
    ∃ fs2, installLinkPhase inst ts now (planFiles inst dmap fs) fs = Except.ok fs2 ∧
      (∀ q, ¬ backupDir inst <+: q → (∀ e ∈ dmap, ¬ q <+: e.2) →
        lookupFS fs2 q = lookupFS fs q) ∧
      (∀ y ∈ (planFiles inst dmap fs).2, lookupFS fs2 y.2.2 = some (Entry.link y.2.1)) ∧
      (∀ d c m t, (∃ x ∈ (planFiles inst dmap fs).1, x.2 = d) →
        lookupFS fs d = some (Entry.file c m t) →
        (∀ x ∈ (planFiles inst dmap fs).1, pathName x.2 = pathName d → x.2 = d) →
        lookupFS fs2 (backupDir inst ++ [backupName d ts]) = some (Entry.file c m t)) := by
  obtain ⟨hbd, hdbd, hddir, hpre, hnost, hnodup⟩ := hwf
  have hbk : ∃ fsB, (if (planFiles inst dmap fs).1.isEmpty then Except.ok fs
      else createSelectiveBackups inst ts now (planFiles inst dmap fs).1 fs) = Except.ok fsB ∧
      (∀ q, ¬ backupDir inst <+: q → lookupFS fsB q = lookupFS fs q) ∧
      (∀ d c m t, (∃ x ∈ (planFiles inst dmap fs).1, x.2 = d) →
        lookupFS fs d = some (Entry.file c m t) →
        (∀ x ∈ (planFiles inst dmap fs).1, pathName x.2 = pathName d → x.2 = d) →
        lookupFS fsB (backupDir inst ++ [backupName d ts]) = some (Entry.file c m t)) := by
    by_cases hemp : (planFiles inst dmap fs).1.isEmpty
    · refine ⟨fs, by rw [if_pos hemp], fun q _ => rfl, ?_⟩
      intro d c m t hex _ _
      obtain ⟨x, hx, _⟩ := hex
      rw [List.isEmpty_iff] at hemp
      rw [hemp] at hx
      simp at hx
    · have hfs0 : ∃ fs0, mkdirSelf fs (backupDir inst) = Except.ok fs0 ∧
          (∀ q, q ≠ backupDir inst → lookupFS fs0 q = lookupFS fs q) := by
        rcases hbd with h1 | h1
        · exact ⟨insertFS fs (backupDir inst) Entry.dir, by rw [mkdirSelf, h1],
            fun q hq => lookupFS_insertFS_other fs _ _ q hq⟩
        · exact ⟨fs, by rw [mkdirSelf, h1], fun q _ => rfl⟩
      obtain ⟨fs0, hm0, hfr0⟩ := hfs0
      have htoB : ∀ x ∈ (planFiles inst dmap fs).1,
          ¬ backupDir inst <+: x.2 ∧ lookupFS fs0 x.2 ≠ some Entry.dir := by
        intro x hx
        have hxd := planFiles_toB_mem inst dmap fs x hx
        have hxb := hdbd x hxd
        have hxneq : x.2 ≠ backupDir inst := fun hc => hxb (hc ▸ List.prefix_refl _)
        refine ⟨hxb, ?_⟩
        rw [hfr0 x.2 hxneq]
        exact hddir x hxd
      obtain ⟨fsB, hgo⟩ := backupsGo_ok inst ts now _ fs0 htoB
      refine ⟨fsB, ?_, ?_, ?_⟩
      · rw [if_neg hemp]
        unfold createSelectiveBackups
        rw [hm0]
        exact hgo
      · intro q hq
        rw [backupsGo_frame inst ts now _ fs0 fsB hgo q hq,
          hfr0 q (fun hc => hq (hc ▸ List.prefix_refl _))]
      · intro d c m t hex hfile hnames
        obtain ⟨x0, hx0, hx0d⟩ := hex
        have hx0dm := planFiles_toB_mem inst dmap fs x0 hx0
        have hd_bd : ¬ backupDir inst <+: d := hx0d ▸ hdbd x0 hx0dm
        refine backupsGo_content inst ts now _ fs0 fsB hgo d c m t ?_ hd_bd
          ⟨x0, hx0, hx0d⟩ hnames (fun x hx => (htoB x hx).1)
        rw [hfr0 d (fun hc => hd_bd (hc ▸ List.prefix_refl _))]
        exact hfile
  obtain ⟨fsB, hbkeq, hbkframe, hbkcontent⟩ := hbk
  have hLpre : ∀ y ∈ (planFiles inst dmap fs).2, ∀ p ∈ properPrefixes y.2.2,
      lookupFS fsB p = none ∨ lookupFS fsB p = some Entry.dir := by
    intro y hy p hp
    have hyd := (planFiles_toL_mem inst dmap fs y hy).1
    have hppre := properPrefixes_mem y.2.2 p hp
    have hpbd : ¬ backupDir inst <+: p := by
      intro hc
      exact hdbd (y.1, y.2.2) hyd (hc.trans hppre.1)
    rw [hbkframe p hpbd]
    exact hpre (y.1, y.2.2) hyd p hp
  have hLnost : ∀ y ∈ (planFiles inst dmap fs).2, ∀ y2 ∈ (planFiles inst dmap fs).2,
      y.2.2 ≠ y2.2.2 → ¬ y.2.2 <+: y2.2.2 := by
    intro y hy y2 hy2 hne
    exact hnost (y.1, y.2.2) (planFiles_toL_mem inst dmap fs y hy).1
      (y2.1, y2.2.2) (planFiles_toL_mem inst dmap fs y2 hy2).1 hne
  obtain ⟨fs2, hlk⟩ := createLinks_ok _ fsB hLpre hLnost
  have hLnodup : ((planFiles inst dmap fs).2.map (fun y => y.2.2)).Nodup :=
    (planFiles_toL_dests_sublist inst dmap fs).nodup hnodup
  refine ⟨fs2, ?_, ?_, ?_, ?_⟩
  · unfold installLinkPhase
    rw [hbkeq]
    exact hlk
  · intro q hqbd hqd
    rw [createLinks_frame _ fsB fs2 hlk q
      (fun y hy => hqd (y.1, y.2.2) (planFiles_toL_mem inst dmap fs y hy).1),
      hbkframe q hqbd]
  · exact fun y hy => createLinks_post _ fsB fs2 hlk hLnodup y hy
  · intro d c m t hex hfile hnames
    rw [createLinks_frame _ fsB fs2 hlk _ ?_]
    · exact hbkcontent d c m t hex hfile hnames
    · intro y hy hc
      have hyd := (planFiles_toL_mem inst dmap fs y hy).1
      exact hdbd (y.1, y.2.2) hyd ((List.prefix_append _ _).trans hc)

/-- Resolutions of an existing and a non-existing path differ. -/
theorem pyResolve_ne_of_exists_mismatch (fs : FS) (p q : FPath)
    (hp : pathExists fs p = true) (hq : pathExists fs q = false) :
    pyResolve fs q ≠ pyResolve fs p := by
  intro hc
  obtain ⟨z, hz⟩ := pyResolve_isSome_of_pathExists fs p hp
  have hzq : pyResolve fs q = some z := by rw [hc, hz]
  have h1 := isExistingKind_of_pathExists fs p z hp hz
  have h2 := isExistingKind_of_not_pathExists fs q z hq hzq
  rw [h1] at h2
  exact Bool.noConfusion h2

/-- An existing foreign-file target schedules a backup and a relink. -/
theorem planEntry_foreign_eq (inst : DInst) (fs : FS) (n : String) (d : FPath)
    (hs : pathExists fs (getSourcePath inst fs n) = true)
    (hnsym : isSymlink fs d = false)
    (hneq : ¬ pyResolve fs (getSourcePath inst fs n) = pyResolve fs d)
    (hex : pathExists fs d = true) :
    planEntry inst fs (n, d) = ([(n, d)], [(n, getSourcePath inst fs n, d)]) := by
  unfold planEntry
  dsimp only
  rw [if_neg (by rw [hs]; exact fun hc => Bool.noConfusion hc),
    if_neg (by rw [hnsym]; exact Bool.false_ne_true),
    if_neg hneq, if_pos hex]

/-- A symlink target that does not resolve to the source schedules a
relink (with a backup when its resolution succeeds). -/
theorem planEntry_link_mem (inst : DInst) (fs : FS) (n : String) (d : FPath)
    (hs : pathExists fs (getSourcePath inst fs n) = true)
    (hsym : isSymlink fs d = true)
    (hneq : pyResolve fs d ≠ pyResolve fs (getSourcePath inst fs n)) :
    (n, getSourcePath inst fs n, d) ∈ (planEntry inst fs (n, d)).2 := by
  unfold planEntry
  dsimp only
  rw [if_neg (by rw [hs]; exact fun hc => Bool.noConfusion hc), if_pos hsym]
  cases ha : pyResolve fs d with
  | none =>
    cases hb : pyResolve fs (getSourcePath inst fs n) <;> simp
  | some a =>
    cases hb : pyResolve fs (getSourcePath inst fs n) with
    | none => simp
    | some b =>
      have hab : ¬ a = b := fun hc => hneq (by rw [ha, hb, hc])
      simp [hab]

/-- Claim C6: a dangling symlink target (resolvable link whose final
path does not exist) is classified `WrongLink`, makes `is_installed`
report false, and `install` replaces it with a correct symlink without
raising. -/
theorem c6_dangling_symlink (inst : DInst) (dmap : List (String × FPath))
    (ts : String) (now : Nat) (fs : FS) (n : String) (d tgt : FPath)
    (hmem : (n, d) ∈ dmap)
    (hs : pathExists fs (getSourcePath inst fs n) = true)
    (hlnk : lookupFS fs d = some (Entry.link tgt))
    (hdangl : pathExists fs d = false)
    (hwf : InstallWF inst dmap fs) :
    classify fs (getSourcePath inst fs n) d = DeploymentState.WrongLink ∧
    dotfilesIsInstalled inst dmap fs = false ∧
    ∃ fs', dotfilesInstall inst dmap ts now fs = (true, fs') ∧
      lookupFS fs' d = some (Entry.link (getSourcePath inst fs n)) := by
  have hsym : isSymlink fs d = true := by simp [isSymlink, hlnk]
  have hneq : pyResolve fs d ≠ pyResolve fs (getSourcePath inst fs n) :=
    pyResolve_ne_of_exists_mismatch fs _ d hs hdangl
  refine ⟨?_, ?_, ?_⟩
  · rw [classify_link fs _ d tgt hlnk, if_neg ?_]
    intro hc
    rw [hdangl] at hc
    exact Bool.noConfusion hc.1
  · have hent : isInstalledEntry inst fs (n, d) = false := by
      unfold isInstalledEntry
      dsimp only
      rw [if_neg (by rw [hs]; exact fun hc => Bool.noConfusion hc), if_pos hdangl]
    rw [Bool.eq_false_iff]
    intro hall
    unfold dotfilesIsInstalled at hall
    have := List.all_eq_true.mp hall (n, d) hmem
    rw [hent] at this
    exact Bool.noConfusion this
  · obtain ⟨fs2, hph, hframe, hlinks, hcontent⟩ :=
      installLinkPhase_main inst ts now dmap fs hwf
    refine ⟨setPermissions inst dmap fs2, ?_, ?_⟩
    · unfold dotfilesInstall
      rw [hph]
    · have hyL : (n, getSourcePath inst fs n, d) ∈ (planFiles inst dmap fs).2 :=
        planFiles_mem_toL inst dmap fs (n, d) hmem _
          (planEntry_link_mem inst fs n d hs hsym hneq)
      exact setPermissions_link inst dmap fs2 d _ (hlinks _ hyL)

/-- Witness for C6 at a concrete state with a dangling `.zshrc` link. -/
theorem c6_dangling_symlink_witness :
    classify fsDangling (getSourcePath instC fsDangling ".zshrc") ["h", ".zshrc"] =
      DeploymentState.WrongLink ∧
    dotfilesIsInstalled instC (dotfilesMap instC) fsDangling = false ∧
    ∃ fs', dotfilesInstall instC (dotfilesMap instC) "20240101_000000" 5 fsDangling =
        (true, fs') ∧
      lookupFS fs' ["h", ".zshrc"] =
        some (Entry.link (getSourcePath instC fsDangling ".zshrc")) :=
  c6_dangling_symlink instC (dotfilesMap instC) "20240101_000000" 5 fsDangling
    ".zshrc" ["h", ".zshrc"] ["r", "configs", "default", ".old-gone"]
    (by decide) (by decide) rfl (by decide) (by unfold InstallWF; decide)

/-- Claim C3: an existing non-symlink target that is not the same file
as the resolved source (`ForeignFile`) is backed up before being
replaced: after `install`, the backup directory holds
`<target-basename>.backup_<timestamp>` with the target's pre-overwrite
content (and mtime), and the target has become a symlink to the
source. -/
theorem c3_foreign_file_backup (inst : DInst) (dmap : List (String × FPath))
    (ts : String) (now : Nat) (fs : FS) (n : String) (d : FPath)
    (c : String) (m t : Nat)
    (hmem : (n, d) ∈ dmap)
    (hs : pathExists fs (getSourcePath inst fs n) = true)
    (hfile : lookupFS fs d = some (Entry.file c m t))
    (hneq : ¬ pyResolve fs (getSourcePath inst fs n) = pyResolve fs d)
    (hwf : InstallWF inst dmap fs)
    (hnames : ∀ e ∈ dmap, pathName e.2 = pathName d → e.2 = d) :
    classify fs (getSourcePath inst fs n) d = DeploymentState.ForeignFile ∧
    ∃ fs', dotfilesInstall inst dmap ts now fs = (true, fs') ∧
      (∃ m2, lookupFS fs' (backupDir inst ++ [backupName d ts]) =
        some (Entry.file c m2 t)) ∧
      lookupFS fs' d = some (Entry.link (getSourcePath inst fs n)) := by
  have hnsym : isSymlink fs d = false := by simp [isSymlink, hfile]
  have hex : pathExists fs d = true := pathExists_of_file fs d c m t hfile
  have hplan := planEntry_foreign_eq inst fs n d hs hnsym hneq hex
  refine ⟨?_, ?_⟩
  · rw [classify_file fs _ d c m t hfile, if_neg (fun hc => hneq hc.symm)]
  · obtain ⟨fs2, hph, hframe, hlinks, hcontent⟩ :=
      installLinkPhase_main inst ts now dmap fs hwf
    have hmemB : (n, d) ∈ (planFiles inst dmap fs).1 :=
      planFiles_mem_toB inst dmap fs (n, d) hmem (n, d) (by rw [hplan]; simp)
    have hmemL : (n, getSourcePath inst fs n, d) ∈ (planFiles inst dmap fs).2 :=
      planFiles_mem_toL inst dmap fs (n, d) hmem _ (by rw [hplan]; simp)
    have hbk : lookupFS fs2 (backupDir inst ++ [backupName d ts]) =
        some (Entry.file c m t) := by
      refine hcontent d c m t ⟨(n, d), hmemB, rfl⟩ hfile ?_
      intro x hx hxn
      exact hnames x (planFiles_toB_mem inst dmap fs x hx) hxn
    refine ⟨setPermissions inst dmap fs2, ?_, ?_, ?_⟩
    · unfold dotfilesInstall
      rw [hph]
    · exact setPermissions_file inst dmap fs2 _ c m t hbk
    · exact setPermissions_link inst dmap fs2 d _ (hlinks _ hmemL)

/-- Witness for C3 at a concrete state with a foreign `.zshrc` file. -/
theorem c3_foreign_file_backup_witness :
    classify fsForeign (getSourcePath instC fsForeign ".zshrc") ["h", ".zshrc"] =
      DeploymentState.ForeignFile ∧
    ∃ fs', dotfilesInstall instC (dotfilesMap instC) "20240101_000000" 5 fsForeign =
        (true, fs') ∧
      (∃ m2, lookupFS fs'
          (backupDir instC ++ [backupName ["h", ".zshrc"] "20240101_000000"]) =
        some (Entry.file "oldcontent" m2 1)) ∧
      lookupFS fs' ["h", ".zshrc"] =
        some (Entry.link (getSourcePath instC fsForeign ".zshrc")) :=
  c3_foreign_file_backup instC (dotfilesMap instC) "20240101_000000" 5 fsForeign
    ".zshrc" ["h", ".zshrc"] "oldcontent" 384 1
    (by decide) (by decide) rfl (by decide) (by unfold InstallWF; decide) (by decide)

/-! ## Claim C8: permissions are applied to the sources -/

theorem shapeEq_symm {fs1 fs2 : FS} (h : ShapeEq fs1 fs2) : ShapeEq fs2 fs1 :=
  ⟨h.1.symm, fun q => (h.2 q).symm⟩

theorem isFileEntry_elim {o : Option Entry} (h : isFileEntry o = true) :
    ∃ c m t, o = some (Entry.file c m t) := by
  match o with
  | none => simp [isFileEntry] at h
  | some (Entry.file c m t) => exact ⟨c, m, t, rfl⟩
  | some (Entry.link t) => simp [isFileEntry] at h
  | some Entry.dir => simp [isFileEntry] at h

/-- The resolved source is always one of the three candidates. -/
theorem getSourcePath_mem_candidates (inst : DInst) (fs : FS) (n : String) :
    getSourcePath inst fs n ∈ candidatePaths inst n := by
  unfold getSourcePath candidatePaths
  dsimp only
  split
  · simp
  · split <;> simp

/-- Resolving a symlink to a regular file lands on that file. -/
theorem pyResolve_link_file (fs : FS) (d s : FPath)
    (hd : lookupFS fs d = some (Entry.link s))
    (hs : ∃ c m t, lookupFS fs s = some (Entry.file c m t)) :
    pyResolve fs d = some s := by
  obtain ⟨c, m, t, hsf⟩ := hs
  have hstep : ∀ k, resolveMany fs (k + 2) d = some s := by
    intro k
    show resolveMany fs (k + 1 + 1) d = some s
    simp only [resolveMany, hd, hsf]
  have hlen : ∃ k, fs.length = k + 1 := by
    cases fs with
    | nil => simp [lookupFS] at hd
    | cons a l => exact ⟨l.length, rfl⟩
  obtain ⟨k, hk⟩ := hlen
  unfold pyResolve
  rw [hk]
  exact hstep k

/-- One `_set_permissions` step cannot change the shape. -/
theorem permsStep_shapeEq (inst : DInst) (fsX : FS) (e : String × FPath) :
    ShapeEq fsX (if pathExists fsX (getSourcePath inst fsX e.1) = true
      then chmodFS fsX (getSourcePath inst fsX e.1) (prescribedMode e.1) else fsX) := by
  split
  · exact chmodFS_shapeEq fsX _ _
  · exact shapeEq_refl fsX

/-- A `_set_permissions` step whose chmod target differs from `s` (or
whose prescribed mode equals the current one) leaves the file at `s`
unchanged. -/
theorem permsStep_preserve (inst : DInst) (fsBase fsX : FS) (hsh : ShapeEq fsX fsBase)
    (e : String × FPath) (s : FPath) (c : String) (mm t : Nat)
    (hcur : lookupFS fsX s = some (Entry.file c mm t))
    (hside : (∀ z, pyResolve fsBase (getSourcePath inst fsBase e.1) = some z → z ≠ s) ∨
      prescribedMode e.1 = mm) :
    lookupFS (if pathExists fsX (getSourcePath inst fsX e.1) = true
      then chmodFS fsX (getSourcePath inst fsX e.1) (prescribedMode e.1) else fsX) s =
      some (Entry.file c mm t) := by
  split
  · have hgsp : getSourcePath inst fsX e.1 = getSourcePath inst fsBase e.1 :=
      shapeEq_getSourcePath hsh inst e.1
    unfold chmodFS
    rw [hgsp, shapeEq_pyResolve hsh (getSourcePath inst fsBase e.1)]
    cases hz : pyResolve fsBase (getSourcePath inst fsBase e.1) with
    | none => exact hcur
    | some z =>
      dsimp only
      cases hlz : lookupFS fsX z with
      | none => exact hcur
      | some ent =>
        cases ent with
        | file cf mf tf =>
          by_cases hzs : z = s
          · subst hzs
            rw [hcur] at hlz
            injection hlz with hlz2
            cases hlz2
            rcases hside with hside | hside
            · exact absurd rfl (hside z hz)
            · rw [lookupFS_insertFS_self, hside]
          · rw [lookupFS_insertFS_other _ _ _ s (fun hc => hzs hc.symm)]
            exact hcur
        | link tf => exact hcur
        | dir => exact hcur
  · exact hcur

/-- `_set_permissions` over entries none of which chmod `s` (except to
re-apply the same mode) leaves the file at `s` unchanged. -/
theorem permsFold_preserve (inst : DInst) (fsBase : FS) (s : FPath) (c : String)
    (mm t : Nat) (l : List (String × FPath)) :
    ∀ fsX : FS, ShapeEq fsX fsBase →
    lookupFS fsX s = some (Entry.file c mm t) →
    (∀ e ∈ l, (∀ z, pyResolve fsBase (getSourcePath inst fsBase e.1) = some z → z ≠ s) ∨
      prescribedMode e.1 = mm) →
    lookupFS (setPermissions inst l fsX) s = some (Entry.file c mm t) := by
  induction l with
  | nil => intro fsX _ hcur _; exact hcur
  | cons e rest ih =>
    intro fsX hsh hcur hall
    unfold setPermissions
    rw [List.foldl_cons]
    dsimp only
    show lookupFS (setPermissions inst rest _) s = _
    refine ih _ (shapeEq_trans (shapeEq_symm (permsStep_shapeEq inst fsX e)) hsh) ?_
      (fun e2 he2 => hall e2 (List.mem_cons_of_mem e he2))
    exact permsStep_preserve inst fsBase fsX hsh e s c mm t hcur
      (hall e (List.mem_cons_self e rest))

/-- `_set_permissions` gives the source file of an entry named `n` its
prescribed mode, keeping content and mtime, provided every other
entry's chmod lands elsewhere (or prescribes the same mode). -/
theorem permsFold_sets (inst : DInst) (fsBase : FS) (s : FPath) (c : String)
    (t : Nat) (n : String) (hsBase : getSourcePath inst fsBase n = s)
    (hfileBase : ∃ mB, lookupFS fsBase s = some (Entry.file c mB t))
    (l : List (String × FPath)) :
    ∀ fsX : FS, ShapeEq fsX fsBase →
    (∃ e ∈ l, e.1 = n) →
    (∀ e ∈ l, e.1 = n ∨
      (∀ z, pyResolve fsBase (getSourcePath inst fsBase e.1) = some z → z ≠ s) ∨
      prescribedMode e.1 = prescribedMode n) →
    lookupFS (setPermissions inst l fsX) s = some (Entry.file c (prescribedMode n) t) := by
  induction l with
  | nil => intro fsX _ hex _; simp at hex
  | cons e rest ih =>
    intro fsX hsh hex hall
    have hcur : ∃ mcur, lookupFS fsX s = some (Entry.file c mcur t) := by
      obtain ⟨mB, hB⟩ := hfileBase
      have := hsh.2 s
      rw [hB] at this
      exact eshape_file_elim (o := lookupFS fsX s) this
    obtain ⟨mcur, hcur⟩ := hcur
    unfold setPermissions
    rw [List.foldl_cons]
    dsimp only
    show lookupFS (setPermissions inst rest _) s = _
    by_cases hen : e.1 = n
    · have hgsp : getSourcePath inst fsX e.1 = s := by
        rw [shapeEq_getSourcePath hsh inst e.1, hen, hsBase]
      have hexX : pathExists fsX (getSourcePath inst fsX e.1) = true := by
        rw [hgsp]
        exact pathExists_of_file fsX s c mcur t hcur
      have hstep : (if pathExists fsX (getSourcePath inst fsX e.1) = true
          then chmodFS fsX (getSourcePath inst fsX e.1) (prescribedMode e.1) else fsX) =
          insertFS fsX s (Entry.file c (prescribedMode n) t) := by
        rw [if_pos hexX, hgsp, hen,
          chmodFS_eq_of_resolve fsX s (prescribedMode n) s
            (pyResolve_of_file fsX s c mcur t hcur), hcur]
      rw [hstep]
      refine permsFold_preserve inst fsBase s c (prescribedMode n) t rest _ ?_ ?_ ?_
      · refine shapeEq_trans (shapeEq_symm ?_) hsh
        have : ShapeEq fsX (insertFS fsX s (Entry.file c (prescribedMode n) t)) := by
          rw [← hstep]
          exact permsStep_shapeEq inst fsX e
        exact this
      · exact lookupFS_insertFS_self fsX s _
      · intro e2 he2
        rcases hall e2 (List.mem_cons_of_mem e he2) with h2 | h2 | h2
        · right; rw [h2]
        · left; exact h2
        · right; exact h2
    · have hex2 : ∃ e2 ∈ rest, e2.1 = n := by
        obtain ⟨e2, he2, he2n⟩ := hex
        rcases List.mem_cons.mp he2 with h2 | h2
        · exact absurd (h2 ▸ he2n) hen
        · exact ⟨e2, h2, he2n⟩
      have hside : (∀ z, pyResolve fsBase (getSourcePath inst fsBase e.1) = some z → z ≠ s) ∨
          prescribedMode e.1 = mcur ∨ True := Or.inr (Or.inr trivial)
      refine ih _ (shapeEq_trans (shapeEq_symm (permsStep_shapeEq inst fsX e)) hsh) hex2
        (fun e2 he2 => hall e2 (List.mem_cons_of_mem e he2))

/-- Claim C8: after `install`, permission modes are applied to the
resolved source files (not the symlinks): the shell rc source gets
0o644 and every other config source gets owner-only 0o600; a target
deployed as a symlink to the source therefore has that same effective
mode (in particular 644, not 600, when only `default/.zshrc` exists). -/
theorem c8_set_permissions (inst : DInst) (dmap : List (String × FPath))
    (ts : String) (now : Nat) (fs : FS) (n : String) (d : FPath)
    (c : String) (m t : Nat)
    (hmem : (n, d) ∈ dmap)
    (hwf : InstallWF inst dmap fs)
    (hsrc : lookupFS fs (getSourcePath inst fs n) = some (Entry.file c m t))
    (hstab : ∀ e ∈ dmap, ∀ cand ∈ candidatePaths inst e.1,
      ¬ backupDir inst <+: cand ∧ (∀ e2 ∈ dmap, ¬ cand <+: e2.2) ∧
      (lookupFS fs cand = none ∨ isFileEntry (lookupFS fs cand) = true))
    (huniq : ∀ e ∈ dmap, e.1 ≠ n → getSourcePath inst fs e.1 ≠ getSourcePath inst fs n) :
    prescribedMode ".zshrc" = 420 ∧ (n ≠ ".zshrc" → prescribedMode n = 384) ∧
    ∃ fs', dotfilesInstall inst dmap ts now fs = (true, fs') ∧
      lookupFS fs' (getSourcePath inst fs n) =
        some (Entry.file c (prescribedMode n) t) ∧
      (lookupFS fs' d = some (Entry.link (getSourcePath inst fs n)) →
        effectiveMode fs' d = some (prescribedMode n)) := by
  refine ⟨rfl, fun hn => by simp [prescribedMode, hn], ?_⟩
  obtain ⟨fs2, hph, hframe, hlinks, hcontent⟩ :=
    installLinkPhase_main inst ts now dmap fs hwf
  have hpecand : ∀ e ∈ dmap, ∀ cand ∈ candidatePaths inst e.1,
      lookupFS fs2 cand = lookupFS fs cand ∧ pathExists fs2 cand = pathExists fs cand := by
    intro e he cand hcand
    obtain ⟨hc1, hc2, hc3⟩ := hstab e he cand hcand
    have heq : lookupFS fs2 cand = lookupFS fs cand := hframe cand hc1 hc2
    refine ⟨heq, ?_⟩
    rcases hc3 with h3 | h3
    · rw [pathExists_of_lookup_none fs cand h3,
        pathExists_of_lookup_none fs2 cand (heq.trans h3)]
    · obtain ⟨cc, mm, tt, h3⟩ := isFileEntry_elim h3
      rw [pathExists_of_file fs cand cc mm tt h3,
        pathExists_of_file fs2 cand cc mm tt (heq.trans h3)]
  have hgsp : ∀ e ∈ dmap, getSourcePath inst fs2 e.1 = getSourcePath inst fs e.1 := by
    intro e he
    unfold getSourcePath
    dsimp only
    rw [(hpecand e he (configsDir inst ++ ["personal", e.1]) (by simp [candidatePaths])).2,
      (hpecand e he (configsDir inst ++ ["default", e.1]) (by simp [candidatePaths])).2]
  have hs2 : lookupFS fs2 (getSourcePath inst fs n) = some (Entry.file c m t) := by
    obtain ⟨hc1, hc2, _⟩ := hstab (n, d) hmem (getSourcePath inst fs n)
      (getSourcePath_mem_candidates inst fs n)
    rw [hframe _ hc1 hc2]
    exact hsrc
  have hmode : lookupFS (setPermissions inst dmap fs2) (getSourcePath inst fs n) =
      some (Entry.file c (prescribedMode n) t) := by
    refine permsFold_sets inst fs2 (getSourcePath inst fs n) c t n
      (hgsp (n, d) hmem) ⟨m, hs2⟩ dmap fs2 (shapeEq_refl fs2) ⟨(n, d), hmem, rfl⟩ ?_
    intro e he
    by_cases hen : e.1 = n
    · exact Or.inl hen
    · refine Or.inr (Or.inl ?_)
      intro z hz hzs
      obtain ⟨hc1, hc2, hc3⟩ := hstab e he (getSourcePath inst fs e.1)
        (getSourcePath_mem_candidates inst fs e.1)
      have hlz : lookupFS fs2 (getSourcePath inst fs e.1) = lookupFS fs _ :=
        hframe _ hc1 hc2
      have hres : pyResolve fs2 (getSourcePath inst fs2 e.1) =
          some (getSourcePath inst fs e.1) := by
        rw [hgsp e he]
        rcases hc3 with h3 | h3
        · exact pyResolve_of_none fs2 _ (hlz.trans h3)
        · obtain ⟨cc, mm, tt, h3⟩ := isFileEntry_elim h3
          exact pyResolve_of_file fs2 _ cc mm tt (hlz.trans h3)
      rw [hres] at hz
      injection hz with hz2
      rw [← hz2] at hzs
      exact huniq e he hen hzs
  refine ⟨setPermissions inst dmap fs2, ?_, hmode, ?_⟩
  · unfold dotfilesInstall
    rw [hph]
  · intro hlink
    have hres : pyResolve (setPermissions inst dmap fs2) d =
        some (getSourcePath inst fs n) :=
      pyResolve_link_file _ d _ hlink ⟨c, prescribedMode n, t, hmode⟩
    unfold effectiveMode
    rw [hres]
    dsimp only
    rw [hmode]

/-- Witness for C8 on the spec's scenario: only `default/.zshrc`
exists (mode 644); after `install` the source keeps mode 644 and the
deployed symlink's effective mode is 644, not 600. -/
theorem c8_set_permissions_witness :
    (∃ fs', dotfilesInstall instC (dotfilesMap instC) "20240101_000000" 8 fsScenario =
        (true, fs') ∧
      lookupFS fs' (getSourcePath instC fsScenario ".zshrc") =
        some (Entry.file "z" (prescribedMode ".zshrc") 6) ∧
      (lookupFS fs' ["h", ".zshrc"] =
          some (Entry.link (getSourcePath instC fsScenario ".zshrc")) →
        effectiveMode fs' ["h", ".zshrc"] = some (prescribedMode ".zshrc"))) ∧
    effectiveMode (dotfilesInstall instC (dotfilesMap instC) "20240101_000000" 8
        fsScenario).2 ["h", ".zshrc"] = some 420 :=
  ⟨(c8_set_permissions instC (dotfilesMap instC) "20240101_000000" 8 fsScenario
      ".zshrc" ["h", ".zshrc"] "z" 420 6 (by decide) (by unfold InstallWF; decide)
      rfl (by decide) (by decide)).2.2,
   by decide⟩
